import Mathlib

/-!
Verification of the core game logic of the BlackJack-Counting-Trainer
repository (a Hi-Lo card-counting blackjack trainer).

The development shallowly embeds the non-UI parts of the repository:

* `config.py`        : card data (`SUITS`, `RANKS`, `HILO_VALUES`) and the
                       reshuffle penetration constant.
* `game_logic.py`    : pure functions `create_deck`, `get_card_value`,
                       `get_hilo_value`, `calculate_hand_score`,
                       `calculate_running_count`, `calculate_true_count`,
                       `get_basic_strategy_decision`.
* `models.py`        : the `Player` dataclass and `PlayerType` enum.
* `blackjack_game.py`: the game state (deck / discarded / visible cards,
                       dealer hand and hole card, players, current player
                       index, game-over flag) and the state-changing
                       operations `_discard_card`, `_reveal_dealer_hole_card`,
                       `_deal_card`, `_deal_dealer_hole_card`, `_shuffle_deck`,
                       the dealing sequence, player actions (hit / stand /
                       double, human and AI variants), dealer play and
                       settlement (`_determine_winners`).

Python lists that are popped from the end are modelled as Lean lists whose
last element is the top of the shoe.  `random.shuffle` is modelled by
quantifying over an arbitrary permutation of the freshly assembled shoe.
Machine-level floats appear only in `calculate_true_count`; its arithmetic
is modelled exactly over `ℚ` (the one numeric instance checked by the spec,
`10 / max (26/52) 0.5`, is exact in binary floating point as well).
Operations that can raise an uncaught Python exception (indexing the current
player out of range, popping from an empty list) return `none`.
-/

/-! ## Cards and configuration (`config.py`) -/

/-- A card is a (rank, suit) pair of strings, exactly as in the source. -/
abbrev Card := String × String

/-- `SUITS` from `config.py`. -/
def SUITS : List String := ["hearts", "diamonds", "clubs", "spades"]

/-- `RANKS` from `config.py`. -/
def RANKS : List String :=
  ["2", "3", "4", "5", "6", "7", "8", "9", "10", "J", "Q", "K", "A"]

/-- `HILO_VALUES` from `config.py`, the Hi-Lo table as an association list
(the Python dict literal in source order). -/
def HILO_VALUES : List (String × Int) :=
  [("2", 1), ("3", 1), ("4", 1), ("5", 1), ("6", 1),
   ("7", 0), ("8", 0), ("9", 0),
   ("10", -1), ("J", -1), ("Q", -1), ("K", -1), ("A", -1)]

/-! ## Pure game logic (`game_logic.py`) -/

/-- The card sequence assembled by `create_deck` before `random.shuffle`:
for each deck, for each suit, for each rank, append `(rank, suit)`.
The shuffle itself is modelled wherever `create_deck` is called by allowing
an arbitrary permutation of this list. -/
def deckCards (num_decks : Nat) : List Card :=
  (List.range num_decks).flatMap fun _ =>
    SUITS.flatMap fun suit => RANKS.map fun rank => (rank, suit)

/-- The numeric value of the rank strings reached by the `int(rank)` branch
of `get_card_value`.  `int` is modelled by a table on the numeric ranks of
`RANKS`; on any other string `int(rank)` raises in Python and is given the
value 0 here (no deck contains such a card). -/
def rankNumericValue (rank : String) : Nat :=
  (([("2", 2), ("3", 3), ("4", 4), ("5", 5), ("6", 6), ("7", 7), ("8", 8),
     ("9", 9), ("10", 10)] : List (String × Nat)).lookup rank).getD 0

/-- `get_card_value`: J/Q/K are worth 10, an ace provisionally 11, any other
rank its numeric value (`int(rank)`). -/
def get_card_value (card : Card) : Nat :=
  if card.1 ∈ ["J", "Q", "K"] then 10
  else if card.1 = "A" then 11
  else rankNumericValue card.1

/-- `get_hilo_value`: look the rank up in `HILO_VALUES`.  (The Python dict
access can only raise for ranks outside `RANKS`, which no deck contains;
that case is given the default 0 here.) -/
def get_hilo_value (card : Card) : Int :=
  (HILO_VALUES.lookup card.1).getD 0

/-- The ace-reduction loop of `calculate_hand_score`:
`while score > 21 and aces > 0: score -= 10; aces -= 1`. -/
def softenAces : Nat → Nat → Nat
  | score, 0 => score
  | score, aces + 1 => if 21 < score then softenAces (score - 10) aces else score

/-- The first pass of `calculate_hand_score`: the sum of all card values
(aces counted as 11). -/
def valueSum (hand : List Card) : Nat :=
  (hand.map get_card_value).sum

/-- The ace counter accumulated by the first pass of `calculate_hand_score`. -/
def aceCount (hand : List Card) : Nat :=
  hand.countP fun c => c.1 == "A"

/-- `calculate_hand_score`: one pass accumulates the provisional score and
the number of aces, then the reduction loop softens aces while the total
exceeds 21. -/
def calculate_hand_score (hand : List Card) : Nat :=
  softenAces (valueSum hand) (aceCount hand)

/-- `calculate_running_count`: fold the Hi-Lo values of the visible cards. -/
def calculate_running_count (visible_cards : List Card) : Int :=
  visible_cards.foldl (fun count card => count + get_hilo_value card) 0

/-- `calculate_true_count`, with the float arithmetic modelled exactly
over `ℚ`: `decks_remaining = max(cards_remaining / 52, 0.5)` and the result
is `running_count / decks_remaining`. -/
def calculate_true_count (running_count : Int) (cards_remaining : Nat) : ℚ :=
  let decks_remaining : ℚ := max ((cards_remaining : ℚ) / 52) (1 / 2)
  running_count / decks_remaining

/-- `get_basic_strategy_decision`, the if/elif cascade from the source. -/
def get_basic_strategy_decision
    (hand_score dealer_upcard num_cards : Nat) : String :=
  if 17 ≤ hand_score then "stand"
  else if 13 ≤ hand_score ∧ dealer_upcard ≤ 6 then "stand"
  else if hand_score = 12 ∧ 4 ≤ dealer_upcard ∧ dealer_upcard ≤ 6 then "stand"
  else if hand_score = 11 ∧ num_cards = 2 then "double"
  else if hand_score = 10 ∧ dealer_upcard ≤ 9 ∧ num_cards = 2 then "double"
  else if hand_score = 9 ∧ 3 ≤ dealer_upcard ∧ dealer_upcard ≤ 6 ∧ num_cards = 2
    then "double"
  else "hit"

/-! Spec-side definitions used to state the claims about the pure
functions. -/

/-- Modelled from the spec (claim C1): all hand totals obtainable by valuing
each ace as 11 or as 1 and every other card at its fixed value. -/
def aceChoiceTotals : List Card → List Nat
  | [] => [0]
  | c :: rest =>
    if c.1 = "A" then
      (aceChoiceTotals rest).flatMap fun t => [t + 11, t + 1]
    else
      (aceChoiceTotals rest).map fun t => t + get_card_value c

/-- Modelled from the spec (claim C2): the seven basic-strategy rules,
evaluated in priority order with the first match winning, exactly as the
spec words them. -/
def basic_strategy_spec (total dealer_upcard num_cards : Nat) : String :=
  if 17 ≤ total then "stand"
  else if 13 ≤ total ∧ total ≤ 16 ∧ dealer_upcard ≤ 6 then "stand"
  else if total = 12 ∧ 4 ≤ dealer_upcard ∧ dealer_upcard ≤ 6 then "stand"
  else if total = 11 ∧ num_cards = 2 then "double"
  else if total = 10 ∧ dealer_upcard ≤ 9 ∧ num_cards = 2 then "double"
  else if total = 9 ∧ 3 ≤ dealer_upcard ∧ dealer_upcard ≤ 6 ∧ num_cards = 2
    then "double"
  else "hit"

/-- Modelled from the spec (claim C5): `true_count(running, cards_remaining)
= running / max(cards_remaining/52, 0.5)`. -/
def true_count_spec (running : Int) (cards_remaining : Nat) : ℚ :=
  running / max ((cards_remaining : ℚ) / 52) (1 / 2)

/-! ## Facts about `calculate_hand_score` (claim C1) -/

theorem get_card_value_ace (c : Card) (h : c.1 = "A") : get_card_value c = 11 := by
  simp [get_card_value, h]

theorem valueSum_cons (c : Card) (hand : List Card) :
    valueSum (c :: hand) = get_card_value c + valueSum hand := by
  simp [valueSum]

theorem aceCount_cons (c : Card) (hand : List Card) :
    aceCount (c :: hand) = aceCount hand + (if c.1 = "A" then 1 else 0) := by
  simp [aceCount, List.countP_cons]

/-- Each ace contributes 11 to the provisional sum, so the sum dominates
eleven times the ace count. -/
theorem eleven_mul_aceCount_le_valueSum (hand : List Card) :
    11 * aceCount hand ≤ valueSum hand := by
  induction hand with
  | nil => simp [aceCount, valueSum]
  | cons c rest ih =>
    rw [valueSum_cons, aceCount_cons]
    by_cases hA : c.1 = "A"
    · rw [get_card_value_ace c hA]
      simp [hA]
      omega
    · simp [hA]
      omega

/-- Characterization of the spec-side choice totals: a total is achievable
iff it is the provisional all-aces-eleven sum minus ten for each of some
subset of the aces. -/
theorem mem_aceChoiceTotals_iff (hand : List Card) (t : Nat) :
    t ∈ aceChoiceTotals hand ↔
      ∃ j, j ≤ aceCount hand ∧ t + 10 * j = valueSum hand := by
  induction hand generalizing t with
  | nil =>
    constructor
    · intro ht
      simp [aceChoiceTotals] at ht
      exact ⟨0, Nat.le_refl _, by simp [ht, valueSum]⟩
    · rintro ⟨j, hj, hsum⟩
      have h0 : valueSum ([] : List Card) = 0 := rfl
      have hc : aceCount ([] : List Card) = 0 := rfl
      rw [hc] at hj
      rw [h0] at hsum
      simp [aceChoiceTotals]
      omega
  | cons c rest ih =>
    have hbound := eleven_mul_aceCount_le_valueSum rest
    by_cases hA : c.1 = "A"
    · have hv := get_card_value_ace c hA
      rw [valueSum_cons, aceCount_cons, hv]
      simp only [hA, if_true]
      constructor
      · intro ht
        simp only [aceChoiceTotals, hA, if_true, List.mem_flatMap] at ht
        obtain ⟨t', ht', hcases⟩ := ht
        obtain ⟨j, hj, hsum⟩ := (ih t').mp ht'
        simp only [List.mem_cons, List.mem_singleton] at hcases
        rcases hcases with h | h | h
        · exact ⟨j, by omega, by omega⟩
        · exact ⟨j + 1, by omega, by omega⟩
        · simp at h
      · rintro ⟨j, hj, hsum⟩
        simp only [aceChoiceTotals, hA, if_true, List.mem_flatMap]
        by_cases hjk : j ≤ aceCount rest
        · have h11 : 11 ≤ t := by omega
          refine ⟨t - 11, (ih (t - 11)).mpr ⟨j, hjk, by omega⟩, ?_⟩
          simp
          omega
        · have hje : j = aceCount rest + 1 := by omega
          have h1 : 1 ≤ t := by omega
          refine ⟨t - 1, (ih (t - 1)).mpr ⟨aceCount rest, Nat.le_refl _, by omega⟩, ?_⟩
          simp
          omega
    · rw [valueSum_cons, aceCount_cons]
      simp only [hA, if_false]
      constructor
      · intro ht
        simp only [aceChoiceTotals, hA, if_false, List.mem_map] at ht
        obtain ⟨t', ht', hsum'⟩ := ht
        obtain ⟨j, hj, hsum⟩ := (ih t').mp ht'
        exact ⟨j, by omega, by omega⟩
      · rintro ⟨j, hj, hsum⟩
        simp only [aceChoiceTotals, hA, if_false, List.mem_map]
        have hvt : get_card_value c ≤ t := by omega
        exact ⟨t - get_card_value c,
          (ih (t - get_card_value c)).mpr ⟨j, by omega, by omega⟩, by omega⟩

theorem softenAces_le (S : Nat) : ∀ k, softenAces S k ≤ S := by
  intro k
  induction k generalizing S with
  | zero => exact Nat.le_refl _
  | succ k ih =>
    rw [softenAces]
    split
    · exact Nat.le_trans (ih (S - 10)) (Nat.sub_le _ _)
    · exact Nat.le_refl _

/-- The result of the softening loop is one of the achievable totals. -/
theorem softenAces_achievable (S : Nat) :
    ∀ k, ∃ j, j ≤ k ∧ softenAces S k + 10 * j = S := by
  intro k
  induction k generalizing S with
  | zero => exact ⟨0, Nat.le_refl _, by simp [softenAces]⟩
  | succ k ih =>
    rw [softenAces]
    split
    · obtain ⟨j, hj, hsum⟩ := ih (S - 10)
      exact ⟨j + 1, by omega, by omega⟩
    · exact ⟨0, by omega, by omega⟩

/-- Any achievable total that stays within 21 is dominated by the loop
result: the loop stops at the largest legal total. -/
theorem softenAces_maximal (S : Nat) :
    ∀ k t, t ≤ 21 → (∃ j, j ≤ k ∧ t + 10 * j = S) → t ≤ softenAces S k := by
  intro k
  induction k generalizing S with
  | zero =>
    rintro t h21 ⟨j, hj, hsum⟩
    simp [softenAces]
    omega
  | succ k ih =>
    rintro t h21 ⟨j, hj, hsum⟩
    rw [softenAces]
    split
    · rename_i hS
      have hj1 : 1 ≤ j := by omega
      exact ih (S - 10) t h21 ⟨j - 1, by omega, by omega⟩
    · omega

/-- When even the loop result busts, it is the least achievable total
(all aces already softened). -/
theorem softenAces_bust_minimal (S : Nat) :
    ∀ k, 21 < softenAces S k →
      ∀ t, (∃ j, j ≤ k ∧ t + 10 * j = S) → softenAces S k ≤ t := by
  intro k
  induction k generalizing S with
  | zero =>
    rintro hb t ⟨j, hj, hsum⟩
    simp [softenAces] at hb ⊢
    omega
  | succ k ih =>
    rw [softenAces]
    split
    · rename_i hS
      rintro hb t ⟨j, hj, hsum⟩
      match j, hsum with
      | 0, hsum =>
        have := softenAces_le (S - 10) k
        omega
      | j' + 1, hsum =>
        exact ih (S - 10) hb t ⟨j', by omega, by omega⟩
    · rintro hb t ⟨j, hj, hsum⟩
      omega

/-! ## Claim C1 -/

/-- Claim C1, counterexample to the claim as stated: for the hand {A,A,9}
the minimal achievable total that is at most 21 is 11 (both aces valued 1),
yet `calculate_hand_score` returns 21 — which the claim itself also demands.
The loop returns the maximal, not the minimal, legal total. -/
theorem C1_counterexample_min_vs_max :
    ((aceChoiceTotals [("A", "spades"), ("A", "hearts"), ("9", "diamonds")]).filter
        (fun t => t ≤ 21)).min? = some 11 ∧
    calculate_hand_score [("A", "spades"), ("A", "hearts"), ("9", "diamonds")] = 21 ∧
    (21 : Nat) ≠ 11 := by
  refine ⟨by decide, by decide, by decide⟩

/-- Claim C1 (amended): `calculate_hand_score` returns an achievable total
(each ace valued 11 or 1); if any achievable total is at most 21 the result
is the MAXIMAL such total, and otherwise the result is the minimal (bust)
total; in particular {A,A,9} scores 21 and {5,5,5} scores 15. -/
theorem C1_hand_score_optimal :
    (∀ hand : List Card,
        calculate_hand_score hand ∈ aceChoiceTotals hand ∧
          ((calculate_hand_score hand ≤ 21 ∧
              ∀ t ∈ aceChoiceTotals hand, t ≤ 21 → t ≤ calculate_hand_score hand) ∨
            (21 < calculate_hand_score hand ∧
              ∀ t ∈ aceChoiceTotals hand, calculate_hand_score hand ≤ t))) ∧
    calculate_hand_score [("A", "spades"), ("A", "hearts"), ("9", "diamonds")] = 21 ∧
    calculate_hand_score [("5", "spades"), ("5", "hearts"), ("5", "diamonds")] = 15 := by
  refine ⟨fun hand => ⟨?_, ?_⟩, by decide, by decide⟩
  · exact (mem_aceChoiceTotals_iff hand _).mpr
      (softenAces_achievable (valueSum hand) (aceCount hand))
  · by_cases h21 : calculate_hand_score hand ≤ 21
    · refine Or.inl ⟨h21, fun t ht htle => ?_⟩
      exact softenAces_maximal (valueSum hand) (aceCount hand) t htle
        ((mem_aceChoiceTotals_iff hand t).mp ht)
    · have hb : 21 < calculate_hand_score hand := Nat.lt_of_not_le h21
      refine Or.inr ⟨hb, fun t ht => ?_⟩
      exact softenAces_bust_minimal (valueSum hand) (aceCount hand) hb t
        ((mem_aceChoiceTotals_iff hand t).mp ht)

/-- Claim C1, witness: the amended theorem instantiated at the hand {A,A,9},
whose score 21 is indeed one of the achievable totals. -/
theorem C1_hand_score_optimal_witness :
    calculate_hand_score [("A", "spades"), ("A", "hearts"), ("9", "diamonds")] ∈
      aceChoiceTotals [("A", "spades"), ("A", "hearts"), ("9", "diamonds")] :=
  (C1_hand_score_optimal.1 [("A", "spades"), ("A", "hearts"), ("9", "diamonds")]).1

/-! ## Claim C2 -/

/-- Claim C2: `get_basic_strategy_decision` agrees with the spec's seven
prioritized rules (first match wins) at every hand total, dealer upcard
value and hand size. -/
theorem C2_basic_strategy_matches_spec :
    ∀ hand_score dealer_upcard num_cards : Nat,
      get_basic_strategy_decision hand_score dealer_upcard num_cards =
        basic_strategy_spec hand_score dealer_upcard num_cards := by
  intro hs du nc
  unfold get_basic_strategy_decision basic_strategy_spec
  split_ifs <;> first | rfl | omega

/-! ## Claim C4 -/

/-- The running count is the sum of the Hi-Lo values of the visible cards. -/
theorem calculate_running_count_eq_sum (l : List Card) :
    calculate_running_count l = (l.map get_hilo_value).sum := by
  have aux : ∀ (l : List Card) (a : Int),
      l.foldl (fun count card => count + get_hilo_value card) a =
        a + (l.map get_hilo_value).sum := by
    intro l
    induction l with
    | nil => intro a; simp
    | cons c rest ih =>
      intro a
      simp [ih, add_assoc]
  simpa using aux l 0

/-- Claim C4: the Hi-Lo value function is exactly the standard table
(+1 for 2–6, 0 for 7–9, −1 for 10/J/Q/K/A), and the running count over one
full 52-card deck (any order) is exactly 0. -/
theorem C4_hilo_values_and_balanced_deck :
    (∀ rank suit : String,
        (rank ∈ ["2", "3", "4", "5", "6"] → get_hilo_value (rank, suit) = 1) ∧
        (rank ∈ ["7", "8", "9"] → get_hilo_value (rank, suit) = 0) ∧
        (rank ∈ ["10", "J", "Q", "K", "A"] → get_hilo_value (rank, suit) = -1)) ∧
    ∀ deck : List Card, deck.Perm (deckCards 1) →
      calculate_running_count deck = 0 := by
  constructor
  · intro rank suit
    refine ⟨?_, ?_, ?_⟩ <;> intro h <;>
      simp only [List.mem_cons, List.not_mem_nil, or_false] at h
    · rcases h with h | h | h | h | h <;> subst h <;> rfl
    · rcases h with h | h | h <;> subst h <;> rfl
    · rcases h with h | h | h | h | h <;> subst h <;> rfl
  · intro deck hperm
    rw [calculate_running_count_eq_sum, (hperm.map get_hilo_value).sum_eq]
    rw [← calculate_running_count_eq_sum]
    decide

/-- Claim C4, witness: the table at the four corners and the balanced count
of the canonical full deck. -/
theorem C4_hilo_values_witness :
    get_hilo_value ("2", "hearts") = 1 ∧ get_hilo_value ("7", "clubs") = 0 ∧
    get_hilo_value ("A", "spades") = -1 ∧
    calculate_running_count (deckCards 1) = 0 :=
  ⟨(C4_hilo_values_and_balanced_deck.1 "2" "hearts").1 (by decide),
   (C4_hilo_values_and_balanced_deck.1 "7" "clubs").2.1 (by decide),
   (C4_hilo_values_and_balanced_deck.1 "A" "spades").2.2 (by decide),
   C4_hilo_values_and_balanced_deck.2 (deckCards 1) (List.Perm.refl _)⟩

/-! ## Claim C5 -/

/-- Claim C5: `calculate_true_count` is the running count divided by
`max(cards_remaining/52, 0.5)`; the divisor is strictly positive (so the
division is genuine), and `calculate_true_count 10 26 = 20`. -/
theorem C5_true_count_formula :
    (∀ (rc : Int) (n : Nat),
        calculate_true_count rc n = true_count_spec rc n ∧
        0 < max ((n : ℚ) / 52) (1 / 2) ∧
        calculate_true_count rc n * max ((n : ℚ) / 52) (1 / 2) = rc) ∧
    calculate_true_count 10 26 = 20 := by
  constructor
  · intro rc n
    have hpos : 0 < max ((n : ℚ) / 52) (1 / 2) :=
      lt_max_of_lt_right (by norm_num)
    refine ⟨rfl, hpos, ?_⟩
    exact div_mul_cancel₀ _ (ne_of_gt hpos)
  · norm_num [calculate_true_count]

/-! ## Game state (`models.py`, `blackjack_game.py`) -/

/-- `PlayerType` from `models.py`. -/
inductive PlayerType where
  | HUMAN
  | AI
deriving DecidableEq, Repr

/-- The `Player` dataclass from `models.py` (names as in source). -/
structure Player where
  name : String
  player_type : PlayerType
  hand : List Card
  is_standing : Bool
  is_busted : Bool
  is_winner : Bool
  ai_skill : Nat
deriving DecidableEq, Repr

/-- The mutable game state of `BlackjackGame` (`blackjack_game.py`),
restricted to the fields the game logic reads or writes.  The last element
of `deck` is the top of the shoe (`list.pop()` pops from the end).
The UI settings consumed by the logic (`num_decks`, `num_players`,
`player_types`, `ai_skill`) are carried as plain fields. -/
structure GameState where
  num_decks : Nat
  num_players : Nat
  player_types : List PlayerType
  ai_skill : Nat
  deck : List Card
  discarded_cards : List Card
  visible_cards : List Card
  players : List Player
  dealer_hand : List Card
  dealer_hole_card : Option Card
  current_player_index : Nat
  game_over : Bool
deriving DecidableEq, Repr

/-- `_discard_card`: append to the discard pile, and to the visible cards
when dealt face up. -/
def discard_card (s : GameState) (card : Card) (visible : Bool) : GameState :=
  { s with discarded_cards := s.discarded_cards ++ [card],
           visible_cards :=
             if visible then s.visible_cards ++ [card] else s.visible_cards }

/-- `_shuffle_deck`: replace the deck by a fresh shuffled shoe (`fresh` is
the arbitrary permutation produced by `random.shuffle` in `create_deck`)
and clear the discard pile, the visible cards and the hole card. -/
def shuffle_deck (s : GameState) (fresh : List Card) : GameState :=
  { s with deck := fresh, discarded_cards := [], visible_cards := [],
           dealer_hole_card := none }

/-- `_reveal_dealer_hole_card`: only when a hole card exists and is not
already a member of the visible cards, append it to the visible cards and
clear the hole-card slot.  (Note the membership test compares card values;
with several decks a duplicate of the hole card may already be visible.) -/
def reveal_dealer_hole_card (s : GameState) : GameState :=
  match s.dealer_hole_card with
  | some c =>
    if c ∈ s.visible_cards then s
    else { s with visible_cards := s.visible_cards ++ [c],
                  dealer_hole_card := none }
  | none => s

/-- The shared prefix of `_deal_card` and `_deal_dealer_hole_card`:
reshuffle when the deck is empty, then pop the top card. -/
def popTop (s : GameState) (fresh : List Card) : Option (Card × GameState) :=
  let s1 := if s.deck.isEmpty then shuffle_deck s fresh else s
  match s1.deck.getLast? with
  | none => none
  | some c => some (c, { s1 with deck := s1.deck.dropLast })

/-- Where a dealt card goes: some player's hand or the dealer's hand. -/
inductive Target where
  | player (i : Nat)
  | dealer
deriving DecidableEq, Repr

/-- Append a card to the hand designated by the target. -/
def addCard (s : GameState) (t : Target) (c : Card) : GameState :=
  match t with
  | .player i =>
    { s with players :=
        s.players.modify (fun p => { p with hand := p.hand ++ [c] }) i }
  | .dealer => { s with dealer_hand := s.dealer_hand ++ [c] }

/-- `_deal_card`: pop the top card (reshuffling first when empty), append it
to the receiving hand and discard it in the same step. -/
def deal_card (s : GameState) (fresh : List Card) (t : Target)
    (visible : Bool) : Option GameState :=
  (popTop s fresh).map fun cs => discard_card (addCard cs.2 t cs.1) cs.1 visible

/-- `_deal_dealer_hole_card`: pop the top card, append it to the dealer's
hand, remember it as the concealed hole card and discard it invisibly. -/
def deal_dealer_hole_card (s : GameState) (fresh : List Card) :
    Option GameState :=
  (popTop s fresh).map fun cs =>
    discard_card
      { cs.2 with dealer_hand := cs.2.dealer_hand ++ [cs.1],
                  dealer_hole_card := some cs.1 }
      cs.1 false

/-- A player that is neither standing nor busted can still act. -/
def isActive (p : Player) : Bool := !p.is_standing && !p.is_busted

/-- Offset of the first active player of a list. -/
def nextActiveOffset : List Player → Nat
  | [] => 0
  | p :: rest => if isActive p then 0 else 1 + nextActiveOffset rest

/-- `_find_next_active_player`: the first index `≥ i` holding an active
player, or the length of the list when none remains. -/
def findNextActiveFrom (ps : List Player) (i : Nat) : Nat :=
  i + nextActiveOffset (ps.drop i)

/-- `_next_player`: advance the index, then search for the next active
player. -/
def next_player (s : GameState) : GameState :=
  { s with current_player_index :=
      findNextActiveFrom s.players (s.current_player_index + 1) }

/-- `_begin_dealing`: rebuild the player list from the settings (default
slot type is Human), clear the dealer hand, reset the turn index and the
game-over flag. -/
def begin_dealing (s : GameState) : GameState :=
  { s with
    players := (List.range s.num_players).map fun i =>
      { name := "Hand " ++ toString (i + 1),
        player_type := s.player_types.getD i PlayerType.HUMAN,
        hand := [], is_standing := false, is_busted := false,
        is_winner := false, ai_skill := s.ai_skill },
    dealer_hand := [], current_player_index := 0, game_over := false }

/-- `_animate_deal_sequence`: one card to each player in order, then the
concealed dealer hole card; again one card to each player, then the
dealer's visible card. -/
def dealSequence (s : GameState) (fresh : List Card) : Option GameState := do
  let s1 ← (List.range s.players.length).foldlM
    (fun st i => deal_card st fresh (.player i) true) s
  let s2 ← deal_dealer_hole_card s1 fresh
  let s3 ← (List.range s.players.length).foldlM
    (fun st i => deal_card st fresh (.player i) true) s2
  deal_card s3 fresh .dealer true

/-- `_finish_dealing`: on a dealer two-card 21 set game over and reveal the
hole card (the round ends, `_handle_dealer_blackjack` changes no further
state); otherwise auto-stand every player already holding 21 and position
the turn index on the first active player. -/
def finish_dealing (s : GameState) : GameState :=
  if calculate_hand_score s.dealer_hand = 21 then
    reveal_dealer_hole_card { s with game_over := true }
  else
    let s1 := { s with players := s.players.map fun (p : Player) =>
      if calculate_hand_score p.hand = 21 then { p with is_standing := true }
      else p }
    { s1 with current_player_index :=
        findNextActiveFrom s1.players s1.current_player_index }

/-- `_begin_dealing` followed by the dealing animation and
`_finish_dealing`. -/
def startRoundDeal (s : GameState) (fresh : List Card) : Option GameState :=
  (dealSequence (begin_dealing s) fresh).map finish_dealing

/-- `_start_new_game`: fresh shoe, cleared discard/visible/hole state, then
deal a round. -/
def start_new_game (s : GameState) (fresh : List Card) : Option GameState :=
  startRoundDeal
    { s with deck := fresh, discarded_cards := [], visible_cards := [],
             dealer_hole_card := none }
    fresh

/-- The reshuffle check of `_deal_new_hand`: reshuffle when penetration is
reached (`len(deck) < num_decks * 52 * 0.25`, i.e. `< num_decks * 13` —
the float product is exact) or the deck is empty. -/
def reshuffleIfNeeded (s : GameState) (fresh : List Card) : GameState :=
  if s.deck.length < s.num_decks * 13 ∨ s.deck = [] then
    { s with deck := fresh, discarded_cards := [], visible_cards := [] }
  else s

/-- `_deal_new_hand`: clear the hole card, reshuffle when the penetration
threshold is crossed, then deal a round. -/
def deal_new_hand (s : GameState) (fresh : List Card) : Option GameState :=
  startRoundDeal
    (reshuffleIfNeeded { s with dealer_hole_card := none } fresh) fresh

/-! ## Player actions (`blackjack_game.py`) -/

/-- `_check_hit_result`: over 21 busts the player, exactly 21 auto-stands. -/
def check_hit_result (s : GameState) (i : Nat) : GameState :=
  { s with players := s.players.modify (fun p =>
      let score := calculate_hand_score p.hand
      if 21 < score then { p with is_busted := true }
      else if score = 21 then { p with is_standing := true }
      else p) i }

/-- `_after_player_hit` / the tail of the AI hit: a now-terminal player
hands the turn on, otherwise the same player keeps acting. -/
def after_player_hit (s : GameState) (i : Nat) : GameState :=
  match s.players.get? i with
  | some p => if p.is_busted || p.is_standing then next_player s else s
  | none => s

/-- The common effect of `_execute_hit`/`_ai_execute_hit`: deal one card to
the current player, apply the 21/bust checks, then advance if terminal. -/
def hitCore (s : GameState) (fresh : List Card) : Option GameState :=
  (deal_card s fresh (.player s.current_player_index) true).map fun s1 =>
    after_player_hit (check_hit_result s1 s.current_player_index)
      s.current_player_index

/-- `_player_hit`: guarded human hit (no-op when the game is over or the
current player is not human; indexing past the player list raises). -/
def player_hit (s : GameState) (fresh : List Card) : Option GameState :=
  if s.game_over then some s
  else
    match s.players.get? s.current_player_index with
    | none => none
    | some p =>
      if p.player_type ≠ PlayerType.HUMAN then some s else hitCore s fresh

/-- `_ai_play`/`_ai_execute_hit`: the AI variant of the hit. -/
def ai_hit (s : GameState) (fresh : List Card) : Option GameState :=
  if s.game_over then some s
  else
    match s.players.get? s.current_player_index with
    | none => none
    | some p =>
      if p.player_type ≠ PlayerType.AI then some s else hitCore s fresh

/-- Mark player `i` standing. -/
def setStanding (s : GameState) (i : Nat) : GameState :=
  { s with players :=
      s.players.modify (fun p => { p with is_standing := true }) i }

/-- `_player_stand`: guarded human stand, then advance the turn. -/
def player_stand (s : GameState) : Option GameState :=
  if s.game_over then some s
  else
    match s.players.get? s.current_player_index with
    | none => none
    | some p =>
      if p.player_type ≠ PlayerType.HUMAN then some s
      else some (next_player (setStanding s s.current_player_index))

/-- `_ai_stand`: the AI variant of the stand. -/
def ai_stand (s : GameState) : Option GameState :=
  if s.game_over then some s
  else
    match s.players.get? s.current_player_index with
    | none => none
    | some p =>
      if p.player_type ≠ PlayerType.AI then some s
      else some (next_player (setStanding s s.current_player_index))

/-- `_check_double_result`: only the bust check (doubling already stood). -/
def check_double_result (s : GameState) (i : Nat) : GameState :=
  { s with players := s.players.modify (fun p =>
      if 21 < calculate_hand_score p.hand then { p with is_busted := true }
      else p) i }

/-- The common effect of `_execute_double`/`_ai_execute_double`: one card,
forced stand, bust check, next player. -/
def doubleCore (s : GameState) (fresh : List Card) : Option GameState :=
  (deal_card s fresh (.player s.current_player_index) true).map fun s1 =>
    next_player
      (check_double_result (setStanding s1 s.current_player_index)
        s.current_player_index)

/-- `_player_double`: rejected as a no-op unless the current player is
human AND holds exactly two cards. -/
def player_double (s : GameState) (fresh : List Card) : Option GameState :=
  if s.game_over then some s
  else
    match s.players.get? s.current_player_index with
    | none => none
    | some p =>
      if p.player_type ≠ PlayerType.HUMAN ∨ p.hand.length ≠ 2 then some s
      else doubleCore s fresh

/-- `_ai_execute_double`: the AI variant (no hand-size re-check in the
executor; `get_ai_decision` only emits a double on two-card hands). -/
def ai_double (s : GameState) (fresh : List Card) : Option GameState :=
  if s.game_over then some s
  else
    match s.players.get? s.current_player_index with
    | none => none
    | some p =>
      if p.player_type ≠ PlayerType.AI then some s else doubleCore s fresh

/-! ## Dealer play and settlement (`blackjack_game.py`) -/

/-- `_determine_winners`: busted players lose; otherwise a player wins iff
the dealer busts or the player's total is larger (only the winners' flag is
set — losses and pushes leave the player record unchanged). -/
def determine_winners (s : GameState) : GameState :=
  let dealer_score := calculate_hand_score s.dealer_hand
  let dealer_busted := 21 < dealer_score
  { s with players := s.players.map fun (p : Player) =>
      if p.is_busted then p
      else if dealer_busted then { p with is_winner := true }
      else if dealer_score < calculate_hand_score p.hand then
        { p with is_winner := true }
      else p }

/-- `_dealer_draw_sequence`: while not every player is busted and the
dealer's total is below 17, draw; then settle.  The loop always terminates
in Python (each drawn card strictly increases the hand's minimal total);
the `fuel` argument makes the recursion structural, with `none` for an
exhausted fuel. -/
def dealer_draw_sequence (fresh : List Card) :
    Nat → Bool → GameState → Option GameState
  | 0, _, _ => none
  | fuel + 1, all_busted, s =>
    if all_busted = false ∧ calculate_hand_score s.dealer_hand < 17 then
      (deal_card s fresh .dealer true).bind
        (dealer_draw_sequence fresh fuel all_busted)
    else
      some (determine_winners s)

/-- `_dealer_play`: set game over, snapshot whether every player is busted,
reveal the hole card and run the draw loop. -/
def dealer_play (s : GameState) (fresh : List Card) (fuel : Nat) :
    Option GameState :=
  let all_busted := s.players.all (·.is_busted)
  dealer_draw_sequence fresh fuel all_busted
    (reveal_dealer_hole_card { s with game_over := true })

/-! ## Small preservation facts -/

theorem reveal_preserves_core (s : GameState) :
    (reveal_dealer_hole_card s).deck = s.deck ∧
    (reveal_dealer_hole_card s).discarded_cards = s.discarded_cards ∧
    (reveal_dealer_hole_card s).players = s.players ∧
    (reveal_dealer_hole_card s).dealer_hand = s.dealer_hand ∧
    (reveal_dealer_hole_card s).game_over = s.game_over := by
  unfold reveal_dealer_hole_card
  cases s.dealer_hole_card with
  | none => exact ⟨rfl, rfl, rfl, rfl, rfl⟩
  | some c =>
    simp only
    split_ifs <;> exact ⟨rfl, rfl, rfl, rfl, rfl⟩

theorem determine_winners_preserves_core (s : GameState) :
    (determine_winners s).deck = s.deck ∧
    (determine_winners s).discarded_cards = s.discarded_cards ∧
    (determine_winners s).visible_cards = s.visible_cards ∧
    (determine_winners s).dealer_hand = s.dealer_hand ∧
    (determine_winners s).game_over = s.game_over := by
  unfold determine_winners
  exact ⟨rfl, rfl, rfl, rfl, rfl⟩

theorem player_hit_of_game_over (s : GameState) (fresh : List Card)
    (h : s.game_over = true) : player_hit s fresh = some s := by
  unfold player_hit
  simp [h]

theorem player_stand_of_game_over (s : GameState)
    (h : s.game_over = true) : player_stand s = some s := by
  unfold player_stand
  simp [h]

theorem player_double_of_game_over (s : GameState) (fresh : List Card)
    (h : s.game_over = true) : player_double s fresh = some s := by
  unfold player_double
  simp [h]

/-! ## Claim C8 -/

/-- Claim C8: a DOUBLE request for a seat whose hand does not hold exactly
two cards is a no-op — the whole game state (deck, discard and visible
piles, hands, flags) is returned unchanged, and the result is `some`
(no exception). -/
theorem C8_double_wrong_hand_size_noop :
    ∀ (s : GameState) (fresh : List Card) (p : Player),
      s.players.get? s.current_player_index = some p →
      p.hand.length ≠ 2 →
      player_double s fresh = some s := by
  intro s fresh p hp hlen
  unfold player_double
  simp only [hp]
  split_ifs with hg hcond
  · rfl
  · rfl
  · exact absurd (Or.inr hlen) hcond

/-- The concrete state used to witness claim C8: one human player holding
three cards, about to act. -/
def c8State : GameState :=
  { num_decks := 1, num_players := 1, player_types := [PlayerType.HUMAN],
    ai_skill := 50,
    deck := [("7", "clubs")], discarded_cards := [], visible_cards := [],
    players := [{ name := "Hand 1", player_type := PlayerType.HUMAN,
                  hand := [("5", "hearts"), ("5", "spades"), ("3", "clubs")],
                  is_standing := false, is_busted := false,
                  is_winner := false, ai_skill := 50 }],
    dealer_hand := [("K", "hearts"), ("9", "clubs")],
    dealer_hole_card := none, current_player_index := 0, game_over := false }

/-- Claim C8, witness: the rejection at the concrete three-card hand. -/
theorem C8_double_wrong_hand_size_noop_witness :
    player_double c8State [] = some c8State :=
  C8_double_wrong_hand_size_noop c8State []
    { name := "Hand 1", player_type := PlayerType.HUMAN,
      hand := [("5", "hearts"), ("5", "spades"), ("3", "clubs")],
      is_standing := false, is_busted := false, is_winner := false,
      ai_skill := 50 }
    rfl (by decide)

/-! ## Claim C3 -/

/-- Claim C3: a dealer two-card natural ends the round at once —
`_finish_dealing` sets game over and only reveals the hole card; the deck,
the discard pile, every hand and every player record are unchanged (no seat
acts, no dealer draw), every seat keeps `is_winner = false` (the code marks
no winners, so every non-blackjack seat is a loss), and any subsequent
hit / stand / double request is a no-op. -/
theorem C3_dealer_blackjack_ends_round :
    ∀ s : GameState,
      calculate_hand_score s.dealer_hand = 21 →
      (∀ p ∈ s.players, p.is_winner = false) →
      (finish_dealing s).game_over = true ∧
      (finish_dealing s).dealer_hand = s.dealer_hand ∧
      (finish_dealing s).deck = s.deck ∧
      (finish_dealing s).discarded_cards = s.discarded_cards ∧
      (finish_dealing s).players = s.players ∧
      (∀ p ∈ (finish_dealing s).players, p.is_winner = false) ∧
      (∀ fresh : List Card,
          player_hit (finish_dealing s) fresh = some (finish_dealing s) ∧
          player_double (finish_dealing s) fresh = some (finish_dealing s)) ∧
      player_stand (finish_dealing s) = some (finish_dealing s) := by
  intro s h21 hw
  have hfd : finish_dealing s =
      reveal_dealer_hole_card { s with game_over := true } := by
    unfold finish_dealing
    rw [if_pos h21]
  obtain ⟨hdk, hdc, hpl, hdh, hgo⟩ :=
    reveal_preserves_core { s with game_over := true }
  rw [hfd]
  refine ⟨hgo, hdh, hdk, hdc, hpl, ?_, ?_, ?_⟩
  · rw [hpl]
    exact hw
  · intro fresh
    exact ⟨player_hit_of_game_over _ fresh hgo,
           player_double_of_game_over _ fresh hgo⟩
  · exact player_stand_of_game_over _ hgo

/-- The concrete state used to witness claim C3: the dealer was dealt
{A,K} (a natural), one seated player holds {5,5}. -/
def c3State : GameState :=
  { num_decks := 1, num_players := 1, player_types := [PlayerType.HUMAN],
    ai_skill := 50,
    deck := [("7", "clubs"), ("8", "clubs")], discarded_cards := [],
    visible_cards := [("5", "hearts"), ("5", "spades"), ("K", "hearts")],
    players := [{ name := "Hand 1", player_type := PlayerType.HUMAN,
                  hand := [("5", "hearts"), ("5", "spades")],
                  is_standing := false, is_busted := false,
                  is_winner := false, ai_skill := 50 }],
    dealer_hand := [("A", "spades"), ("K", "hearts")],
    dealer_hole_card := some ("A", "spades"),
    current_player_index := 0, game_over := false }

/-- Claim C3, witness: at the concrete {A,K} dealer hand the round is over,
the dealer hand is untouched and the seat is not a winner. -/
theorem C3_dealer_blackjack_ends_round_witness :
    (finish_dealing c3State).game_over = true ∧
    (finish_dealing c3State).dealer_hand = c3State.dealer_hand ∧
    (finish_dealing c3State).deck = c3State.deck ∧
    ∀ p ∈ (finish_dealing c3State).players, p.is_winner = false := by
  obtain ⟨h1, h2, h3, _, _, h6, _, _⟩ :=
    C3_dealer_blackjack_ends_round c3State (by decide) (by decide)
  exact ⟨h1, h2, h3, h6⟩

/-! ## Claim C6 -/

/-- Claim C6: during dealer play the dealer draws exactly while not every
seat is busted and the dealer's total is below 17.  Part one: with a total
of 17 or more (soft 17 included — the score function has already softened
aces) or with every seat busted, `_dealer_play` draws nothing: it settles
immediately and the dealer hand is unchanged.  Part two: the draw loop's
step equation — one card is drawn exactly when `not all_busted` and
`score < 17`, otherwise the round is settled. -/
theorem C6_dealer_draw_policy :
    (∀ (s : GameState) (fresh : List Card) (fuel : Nat),
        17 ≤ calculate_hand_score s.dealer_hand ∨
          s.players.all (·.is_busted) = true →
        dealer_play s fresh (fuel + 1) =
          some (determine_winners
            (reveal_dealer_hole_card { s with game_over := true })) ∧
        (determine_winners
            (reveal_dealer_hole_card { s with game_over := true })).dealer_hand =
          s.dealer_hand) ∧
    (∀ (fresh : List Card) (fuel : Nat) (all_busted : Bool) (s : GameState),
        dealer_draw_sequence fresh (fuel + 1) all_busted s =
          if all_busted = false ∧ calculate_hand_score s.dealer_hand < 17 then
            (deal_card s fresh .dealer true).bind
              (dealer_draw_sequence fresh fuel all_busted)
          else some (determine_winners s)) := by
  constructor
  · intro s fresh fuel h
    have hrd : (reveal_dealer_hole_card { s with game_over := true }).dealer_hand
        = s.dealer_hand :=
      (reveal_preserves_core { s with game_over := true }).2.2.2.1
    have hdw : (determine_winners
        (reveal_dealer_hole_card { s with game_over := true })).dealer_hand =
        (reveal_dealer_hole_card { s with game_over := true }).dealer_hand :=
      (determine_winners_preserves_core _).2.2.2.1
    constructor
    · unfold dealer_play
      rw [dealer_draw_sequence]
      rcases h with h17 | hab
      · rw [if_neg]
        simp only [hrd]
        rintro ⟨-, hlt⟩
        omega
      · rw [if_neg]
        simp [hab]
    · rw [hdw, hrd]
  · intro fresh fuel all_busted s
    rfl

/-- The concrete state used to witness claim C6: the dealer holds soft 17
({A,6}) and a seated player stood on 19 — the dealer must not draw. -/
def c6State : GameState :=
  { num_decks := 1, num_players := 1, player_types := [PlayerType.HUMAN],
    ai_skill := 50,
    deck := [("2", "clubs"), ("3", "clubs")], discarded_cards := [],
    visible_cards := [("K", "diamonds"), ("9", "diamonds"), ("6", "spades")],
    players := [{ name := "Hand 1", player_type := PlayerType.HUMAN,
                  hand := [("K", "diamonds"), ("9", "diamonds")],
                  is_standing := true, is_busted := false,
                  is_winner := false, ai_skill := 50 }],
    dealer_hand := [("A", "hearts"), ("6", "spades")],
    dealer_hole_card := some ("A", "hearts"),
    current_player_index := 1, game_over := false }

/-- Claim C6, witness: on soft 17 the dealer draws no card — the dealer
play settles at once and the dealer hand stays {A,6}. -/
theorem C6_dealer_draw_policy_witness :
    dealer_play c6State [] 1 =
      some (determine_winners
        (reveal_dealer_hole_card { c6State with game_over := true })) ∧
    (determine_winners
        (reveal_dealer_hole_card { c6State with game_over := true })).dealer_hand =
      c6State.dealer_hand :=
  C6_dealer_draw_policy.1 c6State [] 0 (Or.inl (by decide))

/-! ## The conservation and counting invariants (claims C9, C10) -/

/-- Claim C9's conservation invariant: undealt plus discarded cards make up
the whole shoe. -/
def Inv9 (s : GameState) : Prop :=
  s.deck.length + s.discarded_cards.length = s.num_decks * 52

/-- The concealed hole card as a multiset (empty when no card is
concealed). -/
def holeMS : Option Card → Multiset Card
  | some c => {c}
  | none => 0

/-- Claim C10's counting invariant, strengthened so that it is inductive:
the visible cards together with the concealed hole card form a sub-multiset
of the discard history. -/
def Inv10 (s : GameState) : Prop :=
  (s.visible_cards : Multiset Card) + holeMS s.dealer_hole_card ≤
    (s.discarded_cards : Multiset Card)

/-- States that agree on every field the two invariants mention. -/
def countFieldsEq (s s' : GameState) : Prop :=
  s'.num_decks = s.num_decks ∧ s'.deck = s.deck ∧
  s'.discarded_cards = s.discarded_cards ∧
  s'.visible_cards = s.visible_cards ∧
  s'.dealer_hole_card = s.dealer_hole_card

theorem countFieldsEq_inv {s s' : GameState} (h : countFieldsEq s s') :
    s'.num_decks = s.num_decks ∧ (Inv9 s → Inv9 s') ∧ (Inv10 s → Inv10 s') := by
  obtain ⟨h1, h2, h3, h4, h5⟩ := h
  refine ⟨h1, ?_, ?_⟩
  · intro hi
    unfold Inv9 at hi ⊢
    rw [h1, h2, h3]
    exact hi
  · intro hi
    unfold Inv10 at hi ⊢
    rw [h3, h4, h5]
    exact hi

theorem addCard_countFieldsEq (s : GameState) (t : Target) (c : Card) :
    countFieldsEq s (addCard s t c) := by
  cases t <;> exact ⟨rfl, rfl, rfl, rfl, rfl⟩

theorem setStanding_countFieldsEq (s : GameState) (i : Nat) :
    countFieldsEq s (setStanding s i) :=
  ⟨rfl, rfl, rfl, rfl, rfl⟩

theorem check_hit_result_countFieldsEq (s : GameState) (i : Nat) :
    countFieldsEq s (check_hit_result s i) :=
  ⟨rfl, rfl, rfl, rfl, rfl⟩

theorem check_double_result_countFieldsEq (s : GameState) (i : Nat) :
    countFieldsEq s (check_double_result s i) :=
  ⟨rfl, rfl, rfl, rfl, rfl⟩

theorem next_player_countFieldsEq (s : GameState) :
    countFieldsEq s (next_player s) :=
  ⟨rfl, rfl, rfl, rfl, rfl⟩

theorem after_player_hit_countFieldsEq (s : GameState) (i : Nat) :
    countFieldsEq s (after_player_hit s i) := by
  unfold after_player_hit
  cases s.players.get? i with
  | none => exact ⟨rfl, rfl, rfl, rfl, rfl⟩
  | some p =>
    simp only
    split_ifs <;> exact ⟨rfl, rfl, rfl, rfl, rfl⟩

theorem determine_winners_countFieldsEq (s : GameState) :
    countFieldsEq s (determine_winners s) :=
  ⟨rfl, rfl, rfl, rfl, rfl⟩

theorem begin_dealing_countFieldsEq (s : GameState) :
    countFieldsEq s (begin_dealing s) :=
  ⟨rfl, rfl, rfl, rfl, rfl⟩

/-- Appending one card to a list adds the singleton to its multiset. -/
theorem coe_append_singleton (l : List Card) (c : Card) :
    ((l ++ [c] : List Card) : Multiset Card) = (l : Multiset Card) + {c} := by
  rw [← Multiset.coe_singleton, Multiset.coe_add]

/-- The reveal step keeps both invariants: moving the concealed card into
the visible multiset consumes exactly the hole contribution. -/
theorem reveal_inv (s : GameState) :
    (reveal_dealer_hole_card s).num_decks = s.num_decks ∧
    (Inv9 s → Inv9 (reveal_dealer_hole_card s)) ∧
    (Inv10 s → Inv10 (reveal_dealer_hole_card s)) := by
  unfold reveal_dealer_hole_card
  cases hh : s.dealer_hole_card with
  | none => exact ⟨rfl, fun h => h, fun h => h⟩
  | some c =>
    simp only
    split_ifs with hmem
    · exact ⟨rfl, fun h => h, fun h => h⟩
    · refine ⟨rfl, fun h => h, fun h => ?_⟩
      unfold Inv10 at h ⊢
      rw [hh] at h
      simp only [holeMS] at h ⊢
      rw [coe_append_singleton, add_zero]
      exact h

/-- `_discard_card` keeps both invariants and adds exactly one card to the
discard pile. -/
theorem discard_card_inv (s : GameState) (c : Card) (vis : Bool) :
    (discard_card s c vis).num_decks = s.num_decks ∧
    (discard_card s c vis).deck = s.deck ∧
    (discard_card s c vis).discarded_cards = s.discarded_cards ++ [c] ∧
    (Inv10 s → Inv10 (discard_card s c vis)) := by
  refine ⟨rfl, rfl, rfl, fun h => ?_⟩
  unfold Inv10 at h ⊢
  unfold discard_card
  simp only
  rw [coe_append_singleton]
  split_ifs with hv
  · rw [coe_append_singleton, add_right_comm]
    exact add_le_add_right h _
  · exact le_trans h (Multiset.le_add_right _ _)

/-- A shoe of `n` decks holds `n * 52` cards. -/
theorem deckCards_length (n : Nat) : (deckCards n).length = n * 52 := by
  induction n with
  | zero => rfl
  | succ k ih =>
    have hsplit : deckCards (k + 1) =
        deckCards k ++ (SUITS.flatMap fun suit => RANKS.map fun rank =>
          ((rank, suit) : Card)) := by
      unfold deckCards
      rw [List.range_succ, List.flatMap_append]
      simp
    rw [hsplit, List.length_append, ih]
    have : (SUITS.flatMap fun suit => RANKS.map fun rank =>
        ((rank, suit) : Card)).length = 52 := by decide
    rw [this]
    ring

/-- `_shuffle_deck` establishes both invariants outright (given a full
permuted shoe). -/
theorem shuffle_deck_inv (s : GameState) (fresh : List Card)
    (hperm : fresh.Perm (deckCards s.num_decks)) :
    (shuffle_deck s fresh).num_decks = s.num_decks ∧
    Inv9 (shuffle_deck s fresh) ∧ Inv10 (shuffle_deck s fresh) := by
  refine ⟨rfl, ?_, ?_⟩
  · unfold Inv9 shuffle_deck
    simp only
    rw [hperm.length_eq, deckCards_length]
    simp
  · unfold Inv10 shuffle_deck holeMS
    simp

/-- Case analysis of `popTop`: either the deck was non-empty and its last
card is popped, or it was empty, the shoe is reshuffled and the fresh
shoe's last card is popped. -/
theorem popTop_spec (s : GameState) (fresh : List Card) (c : Card)
    (s2 : GameState) (h : popTop s fresh = some (c, s2)) :
    (s.deck ≠ [] ∧ s2 = { s with deck := s.deck.dropLast } ∧
      s.deck.getLast? = some c) ∨
    (s.deck = [] ∧
      s2 = { shuffle_deck s fresh with deck := fresh.dropLast } ∧
      fresh.getLast? = some c) := by
  simp only [popTop] at h
  by_cases hd : s.deck.isEmpty
  · right
    have hde : s.deck = [] := List.isEmpty_iff.mp hd
    refine ⟨hde, ?_⟩
    rw [if_pos hd] at h
    cases hl : (shuffle_deck s fresh).deck.getLast? with
    | none => rw [hl] at h; exact absurd h (by simp)
    | some c' =>
      rw [hl] at h
      simp only [Option.some.injEq, Prod.mk.injEq] at h
      have hdeq : (shuffle_deck s fresh).deck = fresh := rfl
      rw [hdeq] at hl
      refine ⟨?_, by rw [← h.1]; exact hl⟩
      rw [← h.2]
      unfold shuffle_deck
      simp
  · left
    have hde : s.deck ≠ [] := by
      intro he
      exact hd (by rw [he]; rfl)
    refine ⟨hde, ?_⟩
    rw [if_neg hd] at h
    cases hl : s.deck.getLast? with
    | none => rw [hl] at h; exact absurd h (by simp)
    | some c' =>
      rw [hl] at h
      simp only [Option.some.injEq, Prod.mk.injEq] at h
      exact ⟨by rw [← h.2], by rw [h.1]⟩

/-- Decomposition of `_deal_card` into pop, hand append and discard. -/
theorem deal_card_cases (s : GameState) (fresh : List Card) (t : Target)
    (vis : Bool) (s' : GameState) (hop : deal_card s fresh t vis = some s') :
    ∃ c s2, popTop s fresh = some (c, s2) ∧
      s' = discard_card (addCard s2 t c) c vis := by
  unfold deal_card at hop
  cases hpt : popTop s fresh with
  | none => rw [hpt] at hop; exact absurd hop (by simp)
  | some cs =>
    rw [hpt] at hop
    simp only [Option.map_some', Option.some.injEq] at hop
    exact ⟨cs.1, cs.2, rfl, hop.symm⟩

/-- Decomposition of `_deal_dealer_hole_card`. -/
theorem deal_hole_cases (s : GameState) (fresh : List Card) (s' : GameState)
    (hop : deal_dealer_hole_card s fresh = some s') :
    ∃ c s2, popTop s fresh = some (c, s2) ∧
      s' = discard_card
        { s2 with dealer_hand := s2.dealer_hand ++ [c],
                  dealer_hole_card := some c } c false := by
  unfold deal_dealer_hole_card at hop
  cases hpt : popTop s fresh with
  | none => rw [hpt] at hop; exact absurd hop (by simp)
  | some cs =>
    rw [hpt] at hop
    simp only [Option.map_some', Option.some.injEq] at hop
    exact ⟨cs.1, cs.2, rfl, hop.symm⟩

/-- After `popTop` the invariants hold in the "one card in hand, not yet
discarded" intermediate form. -/
theorem popTop_inv (s : GameState) (fresh : List Card) (c : Card)
    (s2 : GameState) (hperm : fresh.Perm (deckCards s.num_decks))
    (h : popTop s fresh = some (c, s2)) :
    s2.num_decks = s.num_decks ∧
    (Inv9 s → s2.deck.length + (s2.discarded_cards.length + 1) =
      s2.num_decks * 52) ∧
    (Inv10 s → Inv10 s2) ∧
    s2.visible_cards = (if s.deck = [] then [] else s.visible_cards) ∧
    s2.dealer_hole_card =
      (if s.deck = [] then none else s.dealer_hole_card) := by
  rcases popTop_spec s fresh c s2 h with ⟨hne, hs2, hlast⟩ | ⟨heq, hs2, hlast⟩
  · subst hs2
    refine ⟨rfl, ?_, fun h10 => h10, by rw [if_neg hne], by rw [if_neg hne]⟩
    intro h9
    unfold Inv9 at h9
    simp only [List.length_dropLast]
    have hpos : 0 < s.deck.length := List.length_pos.mpr hne
    omega
  · subst hs2
    obtain ⟨hn, h9, h10⟩ := shuffle_deck_inv s fresh hperm
    have hfne : fresh ≠ [] := by
      intro hf
      rw [hf] at hlast
      exact absurd hlast (by simp)
    refine ⟨rfl, ?_, fun _ => h10, by rw [if_pos heq]; rfl,
      by rw [if_pos heq]; rfl⟩
    intro _
    unfold Inv9 at h9
    have hfd : (shuffle_deck s fresh).deck = fresh := rfl
    rw [hfd] at h9
    simp only [List.length_dropLast]
    have hpos : 0 < fresh.length := List.length_pos.mpr hfne
    have : (shuffle_deck s fresh).discarded_cards = [] := rfl
    rw [this] at h9
    simp at h9
    simp only [this, List.length_nil]
    omega

/-- Every deal preserves the shoe conservation (one card moves from deck
to discard in the same step) and the counting invariant. -/
theorem deal_card_inv (s : GameState) (fresh : List Card) (t : Target)
    (vis : Bool) (s' : GameState)
    (hperm : fresh.Perm (deckCards s.num_decks))
    (hop : deal_card s fresh t vis = some s') :
    s'.num_decks = s.num_decks ∧ (Inv9 s → Inv9 s') ∧
    (Inv10 s → Inv10 s') := by
  obtain ⟨c, s2, hpt, hs'⟩ := deal_card_cases s fresh t vis s' hop
  obtain ⟨hn2, h9i, h10i, -, -⟩ := popTop_inv s fresh c s2 hperm hpt
  obtain ⟨hacn, hacdk, hacdc, hacv, hach⟩ := addCard_countFieldsEq s2 t c
  have hac := countFieldsEq_inv (addCard_countFieldsEq s2 t c)
  obtain ⟨hdn, hddk, hddc, hd10⟩ := discard_card_inv (addCard s2 t c) c vis
  subst hs'
  refine ⟨by rw [hdn, hacn, hn2], ?_, ?_⟩
  · intro h9
    have h2 := h9i h9
    unfold Inv9
    rw [hdn, hacn, hn2, hddk, hacdk, hddc, hacdc, List.length_append]
    simp only [List.length_cons, List.length_nil]
    omega
  · intro h10
    exact hd10 (hac.2.2 (h10i h10))

/-- The hole-card deal also moves one card from deck to discard in the same
step; the concealed card is accounted for by the hole contribution. -/
theorem deal_hole_inv (s : GameState) (fresh : List Card) (s' : GameState)
    (hperm : fresh.Perm (deckCards s.num_decks))
    (hop : deal_dealer_hole_card s fresh = some s') :
    s'.num_decks = s.num_decks ∧ (Inv9 s → Inv9 s') ∧
    (Inv10 s → Inv10 s') := by
  obtain ⟨c, s2, hpt, hs'⟩ := deal_hole_cases s fresh s' hop
  obtain ⟨hn2, h9i, h10i, -, -⟩ := popTop_inv s fresh c s2 hperm hpt
  subst hs'
  refine ⟨by rw [hn2]; rfl, ?_, ?_⟩
  · intro h9
    have h2 := h9i h9
    unfold Inv9 discard_card
    simp only [List.length_append, List.length_cons, List.length_nil]
    omega
  · intro h10
    have h2 := h10i h10
    unfold Inv10 at h2 ⊢
    unfold discard_card holeMS
    simp only
    rw [coe_append_singleton]
    have hVD : (s2.visible_cards : Multiset Card) ≤
        (s2.discarded_cards : Multiset Card) :=
      le_trans (Multiset.le_add_right _ _) h2
    exact add_le_add_right hVD _

/-- The invariant pair tracked along every reachable state: the deck count
is fixed and both invariants hold. -/
def InvPair (n : Nat) (s : GameState) : Prop :=
  s.num_decks = n ∧ Inv9 s ∧ Inv10 s

theorem deal_card_invPair (n : Nat) (fresh : List Card)
    (hperm : fresh.Perm (deckCards n)) (s : GameState) (t : Target)
    (vis : Bool) (s' : GameState) (hi : InvPair n s)
    (hop : deal_card s fresh t vis = some s') : InvPair n s' := by
  obtain ⟨hn, h9, h10⟩ := hi
  have hp : fresh.Perm (deckCards s.num_decks) := by rw [hn]; exact hperm
  obtain ⟨h1, h2, h3⟩ := deal_card_inv s fresh t vis s' hp hop
  exact ⟨by rw [h1, hn], h2 h9, h3 h10⟩

theorem countFieldsEq_invPair {n : Nat} {s s' : GameState}
    (h : countFieldsEq s s') (hi : InvPair n s) : InvPair n s' := by
  obtain ⟨h1, h2, h3⟩ := countFieldsEq_inv h
  exact ⟨by rw [h1, hi.1], h2 hi.2.1, h3 hi.2.2⟩

/-- Generic invariant propagation through an `Option`-valued fold. -/
theorem foldlM_option_inv {α : Type} {P : GameState → Prop}
    (f : GameState → α → Option GameState)
    (hf : ∀ st x st', P st → f st x = some st' → P st') :
    ∀ (l : List α) (s s' : GameState), P s → l.foldlM f s = some s' → P s' := by
  intro l
  induction l with
  | nil =>
    intro s s' hP h
    simp only [List.foldlM_nil] at h
    cases h
    exact hP
  | cons a l ih =>
    intro s s' hP h
    simp only [List.foldlM_cons] at h
    cases hfa : f s a with
    | none => rw [hfa] at h; exact absurd h (by simp)
    | some s1 =>
      rw [hfa] at h
      exact ih s1 s' (hf s a s1 hP hfa) h

/-- The whole dealing sequence preserves the invariant pair. -/
theorem dealSequence_invPair (n : Nat) (fresh : List Card)
    (hperm : fresh.Perm (deckCards n)) (s s' : GameState)
    (hi : InvPair n s) (hop : dealSequence s fresh = some s') :
    InvPair n s' := by
  unfold dealSequence at hop
  simp only [bind, Option.bind_eq_bind] at hop
  cases h1 : (List.range s.players.length).foldlM
      (fun st i => deal_card st fresh (.player i) true) s with
  | none => rw [h1] at hop; exact absurd hop (by simp)
  | some s1 =>
    rw [h1] at hop
    simp only [Option.some_bind] at hop
    cases h2 : deal_dealer_hole_card s1 fresh with
    | none => rw [h2] at hop; exact absurd hop (by simp)
    | some s2 =>
      rw [h2] at hop
      simp only [Option.some_bind] at hop
      cases h3 : (List.range s.players.length).foldlM
          (fun st i => deal_card st fresh (.player i) true) s2 with
      | none => rw [h3] at hop; exact absurd hop (by simp)
      | some s3 =>
        rw [h3] at hop
        simp only [Option.some_bind] at hop
        have hi1 : InvPair n s1 :=
          foldlM_option_inv _
            (fun st x st' hP hf => deal_card_invPair n fresh hperm st _ _ st' hP hf)
            _ s s1 hi h1
        have hi2 : InvPair n s2 := by
          have hp : fresh.Perm (deckCards s1.num_decks) := by
            rw [hi1.1]; exact hperm
          obtain ⟨ha, hb, hc⟩ := deal_hole_inv s1 fresh s2 hp h2
          exact ⟨by rw [ha, hi1.1], hb hi1.2.1, hc hi1.2.2⟩
        have hi3 : InvPair n s3 :=
          foldlM_option_inv _
            (fun st x st' hP hf => deal_card_invPair n fresh hperm st _ _ st' hP hf)
            _ s2 s3 hi2 h3
        exact deal_card_invPair n fresh hperm s3 _ _ s' hi3 hop

/-- Clearing the hole-card slot only weakens the counting invariant. -/
theorem clear_hole_inv10 (s : GameState) (h : Inv10 s) :
    Inv10 { s with dealer_hole_card := none } := by
  unfold Inv10 at h ⊢
  simp only [holeMS, add_zero]
  exact le_trans (Multiset.le_add_right _ _) h

theorem finish_dealing_invPair {n : Nat} {s : GameState}
    (hi : InvPair n s) : InvPair n (finish_dealing s) := by
  unfold finish_dealing
  split_ifs with h21
  · obtain ⟨ha, hb, hc⟩ := reveal_inv { s with game_over := true }
    exact ⟨by rw [ha]; exact hi.1, hb hi.2.1, hc hi.2.2⟩
  · exact countFieldsEq_invPair ⟨rfl, rfl, rfl, rfl, rfl⟩ hi

theorem startRoundDeal_invPair (n : Nat) (fresh : List Card)
    (hperm : fresh.Perm (deckCards n)) (s s' : GameState)
    (hi : InvPair n s) (hop : startRoundDeal s fresh = some s') :
    InvPair n s' := by
  unfold startRoundDeal at hop
  cases hds : dealSequence (begin_dealing s) fresh with
  | none => rw [hds] at hop; exact absurd hop (by simp)
  | some s1 =>
    rw [hds] at hop
    simp only [Option.map_some', Option.some.injEq] at hop
    subst hop
    have hib : InvPair n (begin_dealing s) :=
      countFieldsEq_invPair (begin_dealing_countFieldsEq s) hi
    exact finish_dealing_invPair
      (dealSequence_invPair n fresh hperm (begin_dealing s) s1 hib hds)

/-- `_start_new_game` establishes the invariant pair from any state with
the right deck count: the reset state is a fresh shoe with empty discard
and visible piles. -/
theorem start_new_game_invPair (n : Nat) (fresh : List Card)
    (hperm : fresh.Perm (deckCards n)) (s s' : GameState)
    (hn : s.num_decks = n) (hop : start_new_game s fresh = some s') :
    InvPair n s' := by
  unfold start_new_game at hop
  refine startRoundDeal_invPair n fresh hperm _ s' ⟨?_, ?_, ?_⟩ hop
  · exact hn
  · unfold Inv9
    dsimp only
    rw [hperm.length_eq, deckCards_length, hn]
    simp
  · unfold Inv10
    dsimp only
    simp [holeMS]

/-- `_deal_new_hand` preserves the invariant pair (and re-establishes it
when the penetration threshold forces a reshuffle). -/
theorem deal_new_hand_invPair (n : Nat) (fresh : List Card)
    (hperm : fresh.Perm (deckCards n)) (s s' : GameState)
    (hi : InvPair n s) (hop : deal_new_hand s fresh = some s') :
    InvPair n s' := by
  unfold deal_new_hand reshuffleIfNeeded at hop
  have hi1 : InvPair n { s with dealer_hole_card := none } :=
    ⟨hi.1, hi.2.1, clear_hole_inv10 s hi.2.2⟩
  by_cases hcond :
      ({ s with dealer_hole_card := none } : GameState).deck.length <
        ({ s with dealer_hole_card := none } : GameState).num_decks * 13 ∨
      ({ s with dealer_hole_card := none } : GameState).deck = []
  · rw [if_pos hcond] at hop
    refine startRoundDeal_invPair n fresh hperm _ s' ⟨?_, ?_, ?_⟩ hop
    · exact hi.1
    · unfold Inv9
      dsimp only
      rw [hperm.length_eq, deckCards_length, hi.1]
      simp
    · unfold Inv10
      dsimp only
      simp [holeMS]
  · rw [if_neg hcond] at hop
    exact startRoundDeal_invPair n fresh hperm _ s' hi1 hop

theorem hitCore_invPair (n : Nat) (fresh : List Card)
    (hperm : fresh.Perm (deckCards n)) (s s' : GameState) (hi : InvPair n s)
    (hop : hitCore s fresh = some s') : InvPair n s' := by
  unfold hitCore at hop
  cases hdc : deal_card s fresh (.player s.current_player_index) true with
  | none => rw [hdc] at hop; exact absurd hop (by simp)
  | some s1 =>
    rw [hdc] at hop
    simp only [Option.map_some', Option.some.injEq] at hop
    subst hop
    have hi1 := deal_card_invPair n fresh hperm s _ _ s1 hi hdc
    exact countFieldsEq_invPair (after_player_hit_countFieldsEq _ _)
      (countFieldsEq_invPair (check_hit_result_countFieldsEq s1 _) hi1)

theorem doubleCore_invPair (n : Nat) (fresh : List Card)
    (hperm : fresh.Perm (deckCards n)) (s s' : GameState) (hi : InvPair n s)
    (hop : doubleCore s fresh = some s') : InvPair n s' := by
  unfold doubleCore at hop
  cases hdc : deal_card s fresh (.player s.current_player_index) true with
  | none => rw [hdc] at hop; exact absurd hop (by simp)
  | some s1 =>
    rw [hdc] at hop
    simp only [Option.map_some', Option.some.injEq] at hop
    subst hop
    have hi1 := deal_card_invPair n fresh hperm s _ _ s1 hi hdc
    exact countFieldsEq_invPair (next_player_countFieldsEq _)
      (countFieldsEq_invPair (check_double_result_countFieldsEq _ _)
        (countFieldsEq_invPair (setStanding_countFieldsEq s1 _) hi1))

theorem player_hit_invPair (n : Nat) (fresh : List Card)
    (hperm : fresh.Perm (deckCards n)) (s s' : GameState) (hi : InvPair n s)
    (hop : player_hit s fresh = some s') : InvPair n s' := by
  unfold player_hit at hop
  split at hop
  · cases hop; exact hi
  · split at hop
    · exact absurd hop (by simp)
    · split at hop
      · cases hop; exact hi
      · exact hitCore_invPair n fresh hperm s s' hi hop

theorem ai_hit_invPair (n : Nat) (fresh : List Card)
    (hperm : fresh.Perm (deckCards n)) (s s' : GameState) (hi : InvPair n s)
    (hop : ai_hit s fresh = some s') : InvPair n s' := by
  unfold ai_hit at hop
  split at hop
  · cases hop; exact hi
  · split at hop
    · exact absurd hop (by simp)
    · split at hop
      · cases hop; exact hi
      · exact hitCore_invPair n fresh hperm s s' hi hop

theorem player_stand_invPair (n : Nat) (s s' : GameState) (hi : InvPair n s)
    (hop : player_stand s = some s') : InvPair n s' := by
  unfold player_stand at hop
  split at hop
  · cases hop; exact hi
  · split at hop
    · exact absurd hop (by simp)
    · split at hop
      · cases hop; exact hi
      · cases hop
        exact countFieldsEq_invPair (next_player_countFieldsEq _)
          (countFieldsEq_invPair (setStanding_countFieldsEq s _) hi)

theorem ai_stand_invPair (n : Nat) (s s' : GameState) (hi : InvPair n s)
    (hop : ai_stand s = some s') : InvPair n s' := by
  unfold ai_stand at hop
  split at hop
  · cases hop; exact hi
  · split at hop
    · exact absurd hop (by simp)
    · split at hop
      · cases hop; exact hi
      · cases hop
        exact countFieldsEq_invPair (next_player_countFieldsEq _)
          (countFieldsEq_invPair (setStanding_countFieldsEq s _) hi)

theorem player_double_invPair (n : Nat) (fresh : List Card)
    (hperm : fresh.Perm (deckCards n)) (s s' : GameState) (hi : InvPair n s)
    (hop : player_double s fresh = some s') : InvPair n s' := by
  unfold player_double at hop
  split at hop
  · cases hop; exact hi
  · split at hop
    · exact absurd hop (by simp)
    · split at hop
      · cases hop; exact hi
      · exact doubleCore_invPair n fresh hperm s s' hi hop

theorem ai_double_invPair (n : Nat) (fresh : List Card)
    (hperm : fresh.Perm (deckCards n)) (s s' : GameState) (hi : InvPair n s)
    (hop : ai_double s fresh = some s') : InvPair n s' := by
  unfold ai_double at hop
  split at hop
  · cases hop; exact hi
  · split at hop
    · exact absurd hop (by simp)
    · split at hop
      · cases hop; exact hi
      · exact doubleCore_invPair n fresh hperm s s' hi hop

/-! ## The transition relation of the round state machine -/

/-- `all(p.is_busted for p in self.players)`. -/
def allBusted (s : GameState) : Bool := s.players.all (·.is_busted)

/-- The current player holds exactly two cards (the condition under which
`get_ai_decision` can return a double). -/
def currentHandLen2 (s : GameState) : Bool :=
  match s.players.get? s.current_player_index with
  | some p => p.hand.length == 2
  | none => false

/-- One externally observable transition of the game, mirroring the
callback chains of `blackjack_game.py`: starting a new game (NEW GAME
button), dealing a new hand (DEAL button or auto-deal), human and AI
actions, and the dealer phase broken into its reveal, single draws and the
settlement.  Every fresh shoe is an arbitrary permutation of the assembled
deck. -/
inductive Step : GameState → GameState → Prop where
  | new_game {s s' : GameState} {fresh : List Card}
      (hperm : fresh.Perm (deckCards s.num_decks))
      (hop : start_new_game s fresh = some s') : Step s s'
  | new_hand {s s' : GameState} {fresh : List Card}
      (hperm : fresh.Perm (deckCards s.num_decks))
      (hop : deal_new_hand s fresh = some s') : Step s s'
  | hit {s s' : GameState} {fresh : List Card}
      (hperm : fresh.Perm (deckCards s.num_decks))
      (hop : player_hit s fresh = some s') : Step s s'
  | stand {s s' : GameState}
      (hop : player_stand s = some s') : Step s s'
  | double {s s' : GameState} {fresh : List Card}
      (hperm : fresh.Perm (deckCards s.num_decks))
      (hop : player_double s fresh = some s') : Step s s'
  | aiHit {s s' : GameState} {fresh : List Card}
      (hperm : fresh.Perm (deckCards s.num_decks))
      (hop : ai_hit s fresh = some s') : Step s s'
  | aiStand {s s' : GameState}
      (hop : ai_stand s = some s') : Step s s'
  | aiDouble {s s' : GameState} {fresh : List Card}
      (hlen : currentHandLen2 s = true)
      (hperm : fresh.Perm (deckCards s.num_decks))
      (hop : ai_double s fresh = some s') : Step s s'
  | dealerStart {s : GameState}
      (hgo : s.game_over = false)
      (hdone : s.players.length ≤
        findNextActiveFrom s.players s.current_player_index) :
      Step s (reveal_dealer_hole_card { s with game_over := true })
  | dealerDraw {s s' : GameState} {fresh : List Card}
      (hgo : s.game_over = true) (hnb : allBusted s = false)
      (hlt : calculate_hand_score s.dealer_hand < 17)
      (hperm : fresh.Perm (deckCards s.num_decks))
      (hop : deal_card s fresh .dealer true = some s') : Step s s'
  | settle {s : GameState}
      (hgo : s.game_over = true)
      (hdone : allBusted s = true ∨ 17 ≤ calculate_hand_score s.dealer_hand) :
      Step s (determine_winners s)

/-- Reflexive-transitive closure of `Step`. -/
inductive Reachable (s0 : GameState) : GameState → Prop where
  | refl : Reachable s0 s0
  | tail {s s' : GameState} (hr : Reachable s0 s) (hs : Step s s') :
      Reachable s0 s'

/-- Every transition preserves the invariant pair. -/
theorem Step.invPair {n : Nat} {s s' : GameState} (hst : Step s s')
    (hi : InvPair n s) : InvPair n s' := by
  have hnd : s.num_decks = n := hi.1
  cases hst with
  | new_game hperm hop =>
    exact start_new_game_invPair n _ (by rw [← hnd]; assumption) s s' hnd hop
  | new_hand hperm hop =>
    exact deal_new_hand_invPair n _ (by rw [← hnd]; assumption) s s' hi hop
  | hit hperm hop =>
    exact player_hit_invPair n _ (by rw [← hnd]; assumption) s s' hi hop
  | stand hop => exact player_stand_invPair n s s' hi hop
  | double hperm hop =>
    exact player_double_invPair n _ (by rw [← hnd]; assumption) s s' hi hop
  | aiHit hperm hop =>
    exact ai_hit_invPair n _ (by rw [← hnd]; assumption) s s' hi hop
  | aiStand hop => exact ai_stand_invPair n s s' hi hop
  | aiDouble hlen hperm hop =>
    exact ai_double_invPair n _ (by rw [← hnd]; assumption) s s' hi hop
  | dealerStart hgo hdone =>
    obtain ⟨ha, hb, hc⟩ := reveal_inv { s with game_over := true }
    exact ⟨by rw [ha]; exact hnd, hb hi.2.1, hc hi.2.2⟩
  | dealerDraw hgo hnb hlt hperm hop =>
    exact deal_card_invPair n _ (by rw [← hnd]; assumption) s _ _ s' hi hop
  | settle hgo hdone =>
    exact countFieldsEq_invPair (determine_winners_countFieldsEq s) hi

/-- The invariant pair holds in every reachable state. -/
theorem reachable_invPair (n : Nat) (s0 s : GameState) (h0 : InvPair n s0)
    (hr : Reachable s0 s) : InvPair n s := by
  induction hr with
  | refl => exact h0
  | tail hr hs ih => exact hs.invPair ih

/-! ## Claim C9 -/

/-- A state whose shoe was just created: a full permuted shoe and empty
discard/visible/hole state (the reset performed by `_start_new_game`,
`_shuffle_deck` and the reshuffle branch of `_deal_new_hand`). -/
def freshShoeState (s : GameState) : Prop :=
  s.deck.Perm (deckCards s.num_decks) ∧ s.discarded_cards = [] ∧
  s.visible_cards = [] ∧ s.dealer_hole_card = none

theorem freshShoeState_invPair {s : GameState} (h : freshShoeState s) :
    InvPair s.num_decks s := by
  obtain ⟨hp, hd, hv, hh⟩ := h
  refine ⟨rfl, ?_, ?_⟩
  · unfold Inv9
    rw [hp.length_eq, deckCards_length, hd]
    simp
  · unfold Inv10
    rw [hv, hh]
    simp [holeMS]

/-- A deal from a non-empty deck removes exactly the top card and appends
exactly that card to the discard pile, in the same step. -/
theorem deal_card_moves_one (s : GameState) (fresh : List Card) (t : Target)
    (vis : Bool) (s' : GameState) (hne : s.deck ≠ [])
    (hop : deal_card s fresh t vis = some s') :
    s'.deck.length + 1 = s.deck.length ∧
    ∃ c, s.deck.getLast? = some c ∧
      s'.discarded_cards = s.discarded_cards ++ [c] := by
  obtain ⟨c, s2, hpt, hs'⟩ := deal_card_cases s fresh t vis s' hop
  rcases popTop_spec s fresh c s2 hpt with ⟨-, hs2, hlast⟩ | ⟨he, -, -⟩
  · subst hs2
    subst hs'
    obtain ⟨-, hacdk, hacdc, -, -⟩ := addCard_countFieldsEq
      { s with deck := s.deck.dropLast } t c
    obtain ⟨-, hddk, hddc, -⟩ :=
      discard_card_inv (addCard { s with deck := s.deck.dropLast } t c) c vis
    constructor
    · rw [hddk, hacdk]
      simp only [List.length_dropLast]
      have : 0 < s.deck.length := List.length_pos.mpr hne
      omega
    · exact ⟨c, hlast, by rw [hddc, hacdc]⟩
  · exact absurd he hne

/-- The hole-card deal likewise moves exactly the top card to the dealer
hand and the discard pile in one step. -/
theorem deal_hole_moves_one (s : GameState) (fresh : List Card)
    (s' : GameState) (hne : s.deck ≠ [])
    (hop : deal_dealer_hole_card s fresh = some s') :
    s'.deck.length + 1 = s.deck.length ∧
    ∃ c, s.deck.getLast? = some c ∧
      s'.discarded_cards = s.discarded_cards ++ [c] := by
  obtain ⟨c, s2, hpt, hs'⟩ := deal_hole_cases s fresh s' hop
  rcases popTop_spec s fresh c s2 hpt with ⟨-, hs2, hlast⟩ | ⟨he, -, -⟩
  · subst hs2
    subst hs'
    constructor
    · unfold discard_card
      simp only [List.length_dropLast]
      have : 0 < s.deck.length := List.length_pos.mpr hne
      omega
    · exact ⟨c, hlast, rfl⟩
  · exact absurd he hne

/-- Claim C9: a fresh shoe holds exactly `num_decks * 52` cards; starting
from any freshly shuffled state the conservation
`len(deck) + len(discarded) = num_decks * 52` holds in every reachable
state; and each card-drawing operation (normal deal and hole-card deal)
removes one card from the deck and appends it to the discard history in
the same step. -/
theorem C9_shoe_conservation :
    (∀ n : Nat, (deckCards n).length = n * 52) ∧
    (∀ s0 s : GameState, freshShoeState s0 → Reachable s0 s →
        s.deck.length + s.discarded_cards.length = s.num_decks * 52) ∧
    (∀ (s : GameState) (fresh : List Card) (t : Target) (vis : Bool)
        (s' : GameState), s.deck ≠ [] → deal_card s fresh t vis = some s' →
        s'.deck.length + 1 = s.deck.length ∧
        ∃ c, s.deck.getLast? = some c ∧
          s'.discarded_cards = s.discarded_cards ++ [c]) ∧
    (∀ (s : GameState) (fresh : List Card) (s' : GameState), s.deck ≠ [] →
        deal_dealer_hole_card s fresh = some s' →
        s'.deck.length + 1 = s.deck.length ∧
        ∃ c, s.deck.getLast? = some c ∧
          s'.discarded_cards = s.discarded_cards ++ [c]) := by
  refine ⟨deckCards_length, ?_, deal_card_moves_one, deal_hole_moves_one⟩
  intro s0 s hfresh hr
  have hi := reachable_invPair s0.num_decks s0 s
    (freshShoeState_invPair hfresh) hr
  have h9 := hi.2.1
  unfold Inv9 at h9
  exact h9

/-- A trainer session at its starting state: one deck, five human seats,
nothing dealt yet. -/
def initTrainer : GameState :=
  { num_decks := 1, num_players := 5,
    player_types := [PlayerType.HUMAN, PlayerType.HUMAN, PlayerType.HUMAN,
                     PlayerType.HUMAN, PlayerType.HUMAN],
    ai_skill := 50, deck := deckCards 1, discarded_cards := [],
    visible_cards := [], players := [], dealer_hand := [],
    dealer_hole_card := none, current_player_index := 0, game_over := false }

/-- The state after one concrete deal from the fresh one-deck shoe. -/
def c9DealtState : GameState :=
  (deal_card initTrainer (deckCards 1) Target.dealer true).getD initTrainer

/-- The state after one concrete hole-card deal from the fresh shoe. -/
def c9HoleState : GameState :=
  (deal_dealer_hole_card initTrainer (deckCards 1)).getD initTrainer

/-- Claim C9, witness: the conservation law at the fresh one-deck state and
the one-card bookkeeping of both dealing operations at that state. -/
theorem C9_shoe_conservation_witness :
    (initTrainer.deck.length + initTrainer.discarded_cards.length =
      initTrainer.num_decks * 52) ∧
    (c9DealtState.deck.length + 1 = initTrainer.deck.length ∧
      ∃ c, initTrainer.deck.getLast? = some c ∧
        c9DealtState.discarded_cards = initTrainer.discarded_cards ++ [c]) ∧
    (c9HoleState.deck.length + 1 = initTrainer.deck.length ∧
      ∃ c, initTrainer.deck.getLast? = some c ∧
        c9HoleState.discarded_cards = initTrainer.discarded_cards ++ [c]) := by
  refine ⟨?_, ?_, ?_⟩
  · exact C9_shoe_conservation.2.1 initTrainer initTrainer
      ⟨List.Perm.refl _, rfl, rfl, rfl⟩ Reachable.refl
  · exact C9_shoe_conservation.2.2.1 initTrainer (deckCards 1) Target.dealer
      true c9DealtState (by decide) rfl
  · exact C9_shoe_conservation.2.2.2 initTrainer (deckCards 1) c9HoleState
      (by decide) rfl

/-! ## Claim C7 -/

/-- A trainer session configured for two decks and one human seat. -/
def initTwoDeck : GameState :=
  { num_decks := 2, num_players := 1, player_types := [PlayerType.HUMAN],
    ai_skill := 50, deck := deckCards 2, discarded_cards := [],
    visible_cards := [], players := [], dealer_hand := [],
    dealer_hole_card := none, current_player_index := 0, game_over := false }

/-- A legal shuffle of the two-deck shoe whose top four cards (dealt as
player card, dealer hole card, player card, dealer upcard) are
A♠, A♠, 5♥, K♣. -/
def c7Fresh : List Card :=
  ((deckCards 2).diff
    [("A", "spades"), ("A", "spades"), ("5", "hearts"), ("K", "clubs")]) ++
  [("K", "clubs"), ("5", "hearts"), ("A", "spades"), ("A", "spades")]

/-- The state reached by dealing the first round from that shuffle: the
player holds {A♠,5♥}, the dealer's concealed hole card is the second copy
of A♠, the dealer shows K♣ and has a natural 21, which ends the round and
triggers the hole card reveal. -/
def c7State : GameState :=
  (start_new_game initTwoDeck c7Fresh).getD initTwoDeck

/-- Claim C7, evaluated at the failing input: in a two-deck shoe whose
other A♠ copy is already visible, the reveal step's membership test
(`dealer_hole_card not in visible_cards`) misfires — the hole card is never
added to the visible cards (and stays marked concealed), so its Hi-Lo value
never enters the running count: the count stays at −1 where the spec
requires −2 after the reveal.  The state is reachable in one `new_game`
transition. -/
theorem C7_hole_card_never_counted :
    Reachable initTwoDeck c7State ∧
    c7State.game_over = true ∧
    c7State.dealer_hole_card = some ("A", "spades") ∧
    ("A", "spades") ∈ c7State.visible_cards ∧
    reveal_dealer_hole_card c7State = c7State ∧
    calculate_running_count c7State.visible_cards = -1 ∧
    calculate_running_count
      (c7State.visible_cards ++ [("A", "spades")]) = -2 := by
  refine ⟨Reachable.tail Reachable.refl
      (@Step.new_game initTwoDeck c7State c7Fresh (by decide) rfl),
    by decide, by decide, by decide, by decide, by decide, by decide⟩

/-! ## Claim C10 -/

theorem get?_modify_self (l : List Player) (f : Player → Player) (i : Nat) :
    (l.modify f i).get? i = (l.get? i).map f := by
  rw [List.get?_eq_getElem?, List.get?_eq_getElem?, List.getElem?_modify]
  cases l[i]? <;> simp

/-- A deal to seat `i` appends the same card to that seat's hand and to the
discard pile in the same step. -/
theorem deal_card_player_discard_sync (s : GameState) (fresh : List Card)
    (vis : Bool) (i : Nat) (s' : GameState)
    (hop : deal_card s fresh (.player i) vis = some s')
    (hlen : i < s.players.length) :
    ∃ c p, s'.players.get? i = some p ∧ p.hand.getLast? = some c ∧
      s'.discarded_cards.getLast? = some c := by
  obtain ⟨c, s2, hpt, hs'⟩ := deal_card_cases s fresh (.player i) vis s' hop
  have hpl2 : s2.players = s.players := by
    rcases popTop_spec s fresh c s2 hpt with ⟨-, hs2, -⟩ | ⟨-, hs2, -⟩ <;>
      (subst hs2; rfl)
  subst hs'
  refine ⟨c, ?_⟩
  have hdisc : (discard_card (addCard s2 (.player i) c) c vis).discarded_cards
      = (addCard s2 (.player i) c).discarded_cards ++ [c] := rfl
  have hple : (discard_card (addCard s2 (.player i) c) c vis).players
      = s2.players.modify (fun p => { p with hand := p.hand ++ [c] }) i := rfl
  obtain ⟨p0, hp0⟩ : ∃ p0, s2.players.get? i = some p0 := by
    rw [hpl2]
    exact ⟨_, List.get?_eq_get hlen⟩
  refine ⟨{ p0 with hand := p0.hand ++ [c] }, ?_, ?_, ?_⟩
  · rw [hple, get?_modify_self, hp0]
    rfl
  · simp only
    exact List.getLast?_concat _
  · rw [hdisc]
    exact List.getLast?_concat _

/-- A deal to the dealer appends the same card to the dealer hand and to
the discard pile in the same step. -/
theorem deal_card_dealer_discard_sync (s : GameState) (fresh : List Card)
    (vis : Bool) (s' : GameState)
    (hop : deal_card s fresh .dealer vis = some s') :
    ∃ c, s'.dealer_hand.getLast? = some c ∧
      s'.discarded_cards.getLast? = some c := by
  obtain ⟨c, s2, hpt, hs'⟩ := deal_card_cases s fresh .dealer vis s' hop
  subst hs'
  exact ⟨c, List.getLast?_concat _, List.getLast?_concat _⟩

/-- The hole-card deal appends the same card to the dealer hand, the hole
slot and the discard pile in the same step. -/
theorem deal_hole_discard_sync (s : GameState) (fresh : List Card)
    (s' : GameState) (hop : deal_dealer_hole_card s fresh = some s') :
    ∃ c, s'.dealer_hand.getLast? = some c ∧ s'.dealer_hole_card = some c ∧
      s'.discarded_cards.getLast? = some c := by
  obtain ⟨c, s2, hpt, hs'⟩ := deal_hole_cases s fresh s' hop
  subst hs'
  exact ⟨c, List.getLast?_concat _, rfl, List.getLast?_concat _⟩

/-- Claim C10 (amended): every dealt card enters the discard history at
the instant it is dealt (the same step appends it to the receiving hand
and to the discard pile, for seat deals, dealer deals and the hole-card
deal); in every reachable state the visible-card multiset is a
sub-multiset of the discard history; and the reveal step only moves the
hole card into the visible set — the discard pile and the deck are never
touched by it.  (The claim's further assertion that the discard pile
always contains all in-play hands fails across a mid-round reshuffle; see
the counterexample.) -/
theorem C10_deal_time_discards :
    (∀ s0 s : GameState, freshShoeState s0 → Reachable s0 s →
        (s.visible_cards : Multiset Card) ≤
          (s.discarded_cards : Multiset Card)) ∧
    (∀ (s : GameState) (fresh : List Card) (vis : Bool) (i : Nat)
        (s' : GameState), deal_card s fresh (.player i) vis = some s' →
        i < s.players.length →
        ∃ c p, s'.players.get? i = some p ∧ p.hand.getLast? = some c ∧
          s'.discarded_cards.getLast? = some c) ∧
    (∀ (s : GameState) (fresh : List Card) (vis : Bool) (s' : GameState),
        deal_card s fresh .dealer vis = some s' →
        ∃ c, s'.dealer_hand.getLast? = some c ∧
          s'.discarded_cards.getLast? = some c) ∧
    (∀ (s : GameState) (fresh : List Card) (s' : GameState),
        deal_dealer_hole_card s fresh = some s' →
        ∃ c, s'.dealer_hand.getLast? = some c ∧ s'.dealer_hole_card = some c ∧
          s'.discarded_cards.getLast? = some c) ∧
    (∀ s : GameState,
        (reveal_dealer_hole_card s).discarded_cards = s.discarded_cards ∧
        (reveal_dealer_hole_card s).deck = s.deck) := by
  refine ⟨?_,
    fun s fresh vis i s' hop hlen =>
      deal_card_player_discard_sync s fresh vis i s' hop hlen,
    fun s fresh vis s' hop => deal_card_dealer_discard_sync s fresh vis s' hop,
    fun s fresh s' hop => deal_hole_discard_sync s fresh s' hop,
    fun s => ⟨(reveal_preserves_core s).2.1, (reveal_preserves_core s).1⟩⟩
  intro s0 s hfresh hr
  have hi := reachable_invPair s0.num_decks s0 s
    (freshShoeState_invPair hfresh) hr
  have h10 := hi.2.2
  unfold Inv10 at h10
  exact le_trans (Multiset.le_add_right _ _) h10

/-! ## Executable transitions for concrete traces -/

/-- External actions, used to run concrete game traces: each constructor
carries the fresh shuffle that would be used if a reshuffle fires. -/
inductive Op where
  | newGame (fresh : List Card)
  | newHand (fresh : List Card)
  | hit (fresh : List Card)
  | stand
  | double (fresh : List Card)
  | aiHit (fresh : List Card)
  | aiStand
  | aiDouble (fresh : List Card)
  | dealerStart
  | dealerDraw (fresh : List Card)
  | settle
deriving Repr

/-- Sufficient executable check that a list is a legal shuffle of the
assembled shoe: syntactic equality is the fast path, a full permutation
test the complete one. -/
def permCheck (a b : List Card) : Bool := a == b || decide (a.Perm b)

theorem permCheck_sound {a b : List Card} (h : permCheck a b = true) :
    a.Perm b := by
  unfold permCheck at h
  rcases Bool.or_eq_true_iff.mp h with h | h
  · rw [eq_of_beq h]
  · exact of_decide_eq_true h

/-- Execute one action, checking the guard of the matching `Step`
constructor; `none` when the guard fails or the action itself fails. -/
def runOp (s : GameState) : Op → Option GameState
  | .newGame fresh =>
    if permCheck fresh (deckCards s.num_decks) = true then
      start_new_game s fresh
    else none
  | .newHand fresh =>
    if permCheck fresh (deckCards s.num_decks) = true then
      deal_new_hand s fresh
    else none
  | .hit fresh =>
    if permCheck fresh (deckCards s.num_decks) = true then player_hit s fresh
    else none
  | .stand => player_stand s
  | .double fresh =>
    if permCheck fresh (deckCards s.num_decks) = true then
      player_double s fresh
    else none
  | .aiHit fresh =>
    if permCheck fresh (deckCards s.num_decks) = true then ai_hit s fresh
    else none
  | .aiStand => ai_stand s
  | .aiDouble fresh =>
    if currentHandLen2 s = true ∧
        permCheck fresh (deckCards s.num_decks) = true then
      ai_double s fresh
    else none
  | .dealerStart =>
    if s.game_over = false ∧
        s.players.length ≤
          findNextActiveFrom s.players s.current_player_index then
      some (reveal_dealer_hole_card { s with game_over := true })
    else none
  | .dealerDraw fresh =>
    if s.game_over = true ∧ allBusted s = false ∧
        calculate_hand_score s.dealer_hand < 17 ∧
        permCheck fresh (deckCards s.num_decks) = true then
      deal_card s fresh .dealer true
    else none
  | .settle =>
    if s.game_over = true ∧
        (allBusted s = true ∨ 17 ≤ calculate_hand_score s.dealer_hand) then
      some (determine_winners s)
    else none

/-- Every successful `runOp` is a `Step`. -/
theorem runOp_sound (s s' : GameState) (op : Op)
    (h : runOp s op = some s') : Step s s' := by
  cases op with
  | newGame fresh =>
    simp only [runOp] at h
    split at h
    · exact Step.new_game (permCheck_sound (by assumption)) h
    · exact absurd h (by simp)
  | newHand fresh =>
    simp only [runOp] at h
    split at h
    · exact Step.new_hand (permCheck_sound (by assumption)) h
    · exact absurd h (by simp)
  | hit fresh =>
    simp only [runOp] at h
    split at h
    · exact Step.hit (permCheck_sound (by assumption)) h
    · exact absurd h (by simp)
  | stand => exact Step.stand h
  | double fresh =>
    simp only [runOp] at h
    split at h
    · exact Step.double (permCheck_sound (by assumption)) h
    · exact absurd h (by simp)
  | aiHit fresh =>
    simp only [runOp] at h
    split at h
    · exact Step.aiHit (permCheck_sound (by assumption)) h
    · exact absurd h (by simp)
  | aiStand => exact Step.aiStand h
  | aiDouble fresh =>
    simp only [runOp] at h
    split at h
    · rename_i hc
      exact Step.aiDouble hc.1 (permCheck_sound hc.2) h
    · exact absurd h (by simp)
  | dealerStart =>
    simp only [runOp] at h
    split at h
    · rename_i hc
      cases h
      exact Step.dealerStart hc.1 hc.2
    · exact absurd h (by simp)
  | dealerDraw fresh =>
    simp only [runOp] at h
    split at h
    · rename_i hc
      exact Step.dealerDraw hc.1 hc.2.1 hc.2.2.1
        (permCheck_sound hc.2.2.2) h
    · exact absurd h (by simp)
  | settle =>
    simp only [runOp] at h
    split at h
    · rename_i hc
      cases h
      exact Step.settle hc.1 hc.2
    · exact absurd h (by simp)

/-- Execute a list of actions. -/
def runOps (s : GameState) : List Op → Option GameState
  | [] => some s
  | op :: ops => (runOp s op).bind fun s1 => runOps s1 ops

theorem reachable_head {s s1 s' : GameState} (hstep : Step s s1)
    (hr : Reachable s1 s') : Reachable s s' := by
  induction hr with
  | refl => exact Reachable.tail Reachable.refl hstep
  | tail hr hs ih => exact Reachable.tail ih hs

/-- Every successful action run witnesses reachability. -/
theorem runOps_sound :
    ∀ (ops : List Op) (s s' : GameState), runOps s ops = some s' →
      Reachable s s' := by
  intro ops
  induction ops with
  | nil =>
    intro s s' h
    cases h
    exact Reachable.refl
  | cons op ops ih =>
    intro s s' h
    unfold runOps at h
    cases hop : runOp s op with
    | none => rw [hop] at h; exact absurd h (by simp)
    | some s1 =>
      rw [hop] at h
      exact reachable_head (runOp_sound s s1 op hop) (ih s1 s' h)

theorem eq_some_getD_of_isSome {α : Type} (o : Option α) (d : α)
    (h : o.isSome = true) : o = some (o.getD d) := by
  cases o with
  | none => exact absurd h (by simp)
  | some a => rfl

/-- The draw order of a concrete 52-card shuffle (first element = first
card dealt): three full rounds in which all five seats stand pat and the
dealer shows 19, then a fourth round leaving four cards, which seat 1
consumes by hitting — so that its fifth hit finds the deck empty. -/
def c10PopOrder : List Card :=
  [("4", "hearts"), ("4", "diamonds"), ("4", "clubs"), ("4", "spades"),
   ("6", "hearts"), ("10", "hearts"),
   ("5", "hearts"), ("5", "diamonds"), ("5", "clubs"), ("5", "spades"),
   ("7", "hearts"), ("9", "hearts"),
   ("6", "diamonds"), ("6", "clubs"), ("6", "spades"), ("8", "hearts"),
   ("8", "diamonds"), ("10", "diamonds"),
   ("7", "diamonds"), ("7", "clubs"), ("7", "spades"), ("A", "hearts"),
   ("A", "diamonds"), ("9", "diamonds"),
   ("8", "clubs"), ("8", "spades"), ("J", "hearts"), ("J", "diamonds"),
   ("J", "clubs"), ("10", "clubs"),
   ("A", "clubs"), ("A", "spades"), ("Q", "hearts"), ("Q", "diamonds"),
   ("Q", "clubs"), ("9", "clubs"),
   ("2", "hearts"), ("K", "hearts"), ("K", "diamonds"), ("K", "clubs"),
   ("K", "spades"), ("10", "spades"),
   ("3", "hearts"), ("3", "diamonds"), ("3", "clubs"), ("J", "spades"),
   ("Q", "spades"), ("9", "spades"),
   ("2", "diamonds"), ("2", "clubs"), ("2", "spades"), ("3", "spades")]

/-- The same shuffle as a deck list (cards are popped from the end). -/
def c10Fresh : List Card := c10PopOrder.reverse

/-- One uneventful round: five stands, the dealer phase, settlement. -/
def c10RoundOps : List Op :=
  [Op.stand, Op.stand, Op.stand, Op.stand, Op.stand, Op.dealerStart,
   Op.settle]

/-- Four rounds of play: rounds 1–3 consume 12 cards each (52 → 16), round
4 deals 12 more (deck 4) and seat 1 hits five times — the fifth hit finds
the deck empty and reshuffles mid-round, wiping the discard pile while
seven cards are still in seat 1's hand. -/
def c10Ops : List Op :=
  [Op.newGame c10Fresh] ++ c10RoundOps ++
  [Op.newHand (deckCards 1)] ++ c10RoundOps ++
  [Op.newHand (deckCards 1)] ++ c10RoundOps ++
  [Op.newHand (deckCards 1)] ++
  [Op.hit (deckCards 1), Op.hit (deckCards 1), Op.hit (deckCards 1),
   Op.hit (deckCards 1), Op.hit (deckCards 1)]

/-- The state just after the mid-round reshuffle. -/
def c10Bad : GameState := (runOps initTrainer c10Ops).getD initTrainer

/-- Claim C10, counterexample to the claim as stated: in the reachable
state right after an in-round reshuffle (deck exhausted by a hit), seat 1
still holds the card 2♥ dealt earlier in the round, but the discard
history was just reset — the discard pile does not contain the cards of
the in-play hands. -/
theorem C10_counterexample_midround_reshuffle :
    freshShoeState initTrainer ∧
    Reachable initTrainer c10Bad ∧
    ("2", "hearts") ∈ ((c10Bad.players.get? 0).map Player.hand).getD [] ∧
    ("2", "hearts") ∉ c10Bad.discarded_cards := by
  have hrun : (runOps initTrainer c10Ops).isSome = true := by decide
  exact ⟨⟨List.Perm.refl _, rfl, rfl, rfl⟩,
    runOps_sound c10Ops initTrainer c10Bad
      (eq_some_getD_of_isSome _ initTrainer hrun),
    by decide, by decide⟩

/-- Claim C10, witness: the sub-multiset invariant and the
discard-untouched reveal at the fresh one-deck state. -/
theorem C10_deal_time_discards_witness :
    (initTrainer.visible_cards : Multiset Card) ≤
      (initTrainer.discarded_cards : Multiset Card) ∧
    (reveal_dealer_hole_card initTrainer).discarded_cards =
      initTrainer.discarded_cards :=
  ⟨C10_deal_time_discards.1 initTrainer initTrainer
      ⟨List.Perm.refl _, rfl, rfl, rfl⟩ Reachable.refl,
   (C10_deal_time_discards.2.2.2.2 initTrainer).1⟩
